import Mathlib

/-!
Verification of the bustub buffer-pool core: a shallow embedding of
`src/buffer/clock_replacer.cpp` and `src/buffer/buffer_pool_manager.cpp`
together with proofs about the embedded operations.

Modelling conventions:
* Frame ids are `Nat`.  In the source `frame_id_t` is a 32-bit signed
  integer, but every frame id the manager hands to the replacer lies in
  `[0, pool_size)`; negative or overflowing ids are a documented client
  error with undefined behaviour, so the embedding uses `Nat`.
* `std::unordered_map` is modelled as an association list with
  lookup / pointwise-update / key-filter operations; since the container
  itself guarantees unique keys these agree with the single-entry
  operations of the source.
* `BUSTUB_ASSERT` is compiled out in release builds; the embedding follows
  the release semantics (the assert is a no-op).  Where an assertion can
  actually fail this is called out explicitly.
* The page byte buffer (`data_`, `PAGE_SIZE` bytes) is only ever copied
  wholesale (zeroed, read from disk, written to disk, overwritten by the
  pinning caller), so it is modelled as a single abstract value of type
  `Nat`, with `0` standing for the zeroed buffer.
* The unbounded `while` loop of `ClockReplacer::Victim` is modelled with
  explicit fuel; `victimLoop` returning `none` with nonzero fuel matches
  the source returning `false`, and exhausting every fuel corresponds to
  the source looping forever.
-/

/-- One entry of `ClockReplacer::frames_` (struct `ClockFrame` in
`clock_replacer.h`): the pinned flag and the second-chance reference bit. -/
structure ClockFrame where
  pinned : Bool
  referenced : Bool
deriving Repr, DecidableEq

/-- Lookup in the association-list model of `std::unordered_map`. -/
def framesLookup : List (Nat × ClockFrame) → Nat → Option ClockFrame
  | [], _ => none
  | (g, cf) :: rest, f => if g = f then some cf else framesLookup rest f

/-- `frames_[f]` read access: absent keys read as a default-constructed
`ClockFrame` (pinned = false, referenced = false), matching `operator[]`. -/
def framesGetD (fr : List (Nat × ClockFrame)) (f : Nat) : ClockFrame :=
  (framesLookup fr f).getD ⟨false, false⟩

/-- Pointwise update of the entry with key `f` (write through
`operator[]` at call sites where the key is present). -/
def framesUpdate (fr : List (Nat × ClockFrame)) (f : Nat) (v : ClockFrame) :
    List (Nat × ClockFrame) :=
  fr.map fun p => if p.1 = f then (p.1, v) else p

/-- `frames_.erase(f)`: removes the entry with key `f`. -/
def framesErase (fr : List (Nat × ClockFrame)) (f : Nat) :
    List (Nat × ClockFrame) :=
  fr.filter fun p => p.1 ≠ f

/-- The state of `ClockReplacer` (header `clock_replacer.h`): the hand, the
victimizable counter, the fragmented circular buffer `clock_`, the sorted
list `freeList_` of empty slots, and the frame map `frames_`.
`victimizable_` is `size_t` in the source; it is modelled as `Int` so that
a decrement below zero is still nonzero, as the wrapped `size_t` is. -/
structure ClockReplacer where
  clockHand : Nat
  victimizable : Int
  clock : List (Option Nat)
  freeList : List Nat
  frames : List (Nat × ClockFrame)
deriving Repr, DecidableEq

namespace ClockReplacer

/-- The constructor `ClockReplacer(num_pages)`: empty clock of `num_pages`
slots, every slot on the free list, hand at zero. -/
def init (numPages : Nat) : ClockReplacer where
  clockHand := 0
  victimizable := 0
  clock := List.replicate numPages none
  freeList := List.range numPages
  frames := []

/-- The recursion of `binarySearchFreeSlots`, made structural on a fuel
argument that bounds the interval length `e - b` (each recursive call of
the source shrinks the interval, so fuel `e - b` never runs out). -/
def binarySearchAux (fl : List Nat) (val : Nat) : Nat → Nat → Nat → Nat
  | 0, b, _ => b
  | fuel + 1, b, e =>
    if b < e then
      let mid := b + (e - b) / 2
      if fl.getD mid 0 = val then mid
      else if fl.getD mid 0 < val then
        let pos := binarySearchAux fl val fuel (mid + 1) e
        if pos = fl.length then mid
        else if fl.getD pos 0 ≠ val then mid
        else pos
      else binarySearchAux fl val fuel b mid
    else b

/-- `binarySearchFreeSlots(val, begin, end)`: the source's binary search
over `freeList_`.  The `begin = end` base case returns `begin`; the
source is only ever called with `begin ≤ end`, and the embedding returns
`b` for the unreachable `b > e` arguments as well. -/
def binarySearchFreeSlots (fl : List Nat) (val : Nat) (b e : Nat) : Nat :=
  binarySearchAux fl val (e - b) b e

/-- `insertFreeList(val)`: push_back into an empty list, otherwise insert
after the binary-search position.  The over-extension assert is a release
no-op. -/
def insertFreeList (fl : List Nat) (val : Nat) : List Nat :=
  if fl = [] then [val]
  else
    let pos := binarySearchFreeSlots fl val 0 fl.length
    fl.insertIdx (pos + 1) val

/-- `removeFreeList(val)`: erase the binary-search position.  The
`freeList_[found] == val` assert is a release no-op. -/
def removeFreeList (fl : List Nat) (val : Nat) : List Nat :=
  let found := binarySearchFreeSlots fl val 0 fl.length
  fl.eraseIdx found

/-- `std::swap(clock_[i], clock_[j])`. -/
def clockSwap (c : List (Option Nat)) (i j : Nat) : List (Option Nat) :=
  (c.set i (c.getD j none)).set j (c.getD i none)

/-- The descending loop of `bubbleClockElement` (swaps at
`i, i-1, …, i-k+1`, each swapping with the slot below). -/
def swapDownN : List (Option Nat) → Nat → Nat → List (Option Nat)
  | c, _, 0 => c
  | c, i, k + 1 => swapDownN (clockSwap c i (i - 1)) (i - 1) k

/-- The ascending loop of `bubbleClockElement` (swaps at
`i, i+1, …, i+k-1`, each swapping with the slot above). -/
def swapUpN : List (Option Nat) → Nat → Nat → List (Option Nat)
  | c, _, 0 => c
  | c, i, k + 1 => swapUpN (clockSwap c i (i + 1)) (i + 1) k

/-- `bubbleClockElement(start, end)`: bubble the hole at `start` next to
the hand; moving it downwards also advances the hand (with wrap-around). -/
def bubbleClockElement (r : ClockReplacer) (start fin : Nat) : ClockReplacer :=
  if start > fin then
    let c := swapDownN r.clock start (start - (fin + 1))
    let h := r.clockHand + 1
    { r with clock := c, clockHand := if h = r.clock.length then 0 else h }
  else
    { r with clock := swapUpN r.clock start (fin - start) }

/-- `prepareToInsertAtHand()`: make `clock_[clockHand_]` an empty slot and
drop that slot from `freeList_` (both asserts are release no-ops). -/
def prepareToInsertAtHand (r : ClockReplacer) : ClockReplacer :=
  if r.clock.getD r.clockHand none = none then
    { r with freeList := removeFreeList r.freeList r.clockHand }
  else
    let pos := binarySearchFreeSlots r.freeList r.clockHand 0 r.freeList.length
    if pos + 1 = r.freeList.length then
      let r' := bubbleClockElement r (r.freeList.getD pos 0) r.clockHand
      { r' with freeList := r'.freeList.eraseIdx pos }
    else
      let s1 := r.freeList.getD pos 0
      let s2 := r.freeList.getD (pos + 1) 0
      let p1 := if r.clockHand > s1 then r.clockHand - s1 else s1 - r.clockHand
      let p2 := if r.clockHand > s2 then r.clockHand - s2 else s2 - r.clockHand
      if p1 < p2 then
        let r' := bubbleClockElement r s1 r.clockHand
        { r' with freeList := r'.freeList.eraseIdx pos }
      else
        let r' := bubbleClockElement r s2 r.clockHand
        { r' with freeList := r'.freeList.eraseIdx (pos + 1) }

/-- `setUnpinFrameAttributes(f)`: `pinned.exchange(false)`; on a
pinned→unpinned transition set the reference bit and bump the counter. -/
def setUnpinFrameAttributes (r : ClockReplacer) (f : Nat) : ClockReplacer :=
  let cf := framesGetD r.frames f
  if cf.pinned then
    { r with frames := framesUpdate r.frames f ⟨false, true⟩
           , victimizable := r.victimizable + 1 }
  else
    { r with frames := framesUpdate r.frames f ⟨false, cf.referenced⟩ }

/-- `setPinFrameAttributes(f)`: `pinned.exchange(true)`; on an
unpinned→pinned transition decrement the counter. -/
def setPinFrameAttributes (r : ClockReplacer) (f : Nat) : ClockReplacer :=
  let cf := framesGetD r.frames f
  if cf.pinned then
    { r with frames := framesUpdate r.frames f ⟨true, cf.referenced⟩ }
  else
    { r with frames := framesUpdate r.frames f ⟨true, cf.referenced⟩
           , victimizable := r.victimizable - 1 }

/-- `ClockReplacer::Pin(f)`: update a known frame, otherwise insert it
pinned at the hand. -/
def Pin (r : ClockReplacer) (f : Nat) : ClockReplacer :=
  if (framesLookup r.frames f).isSome then
    setPinFrameAttributes r f
  else
    let r' := prepareToInsertAtHand r
    { r' with frames := (f, ⟨true, false⟩) :: r'.frames
            , clock := r'.clock.set r'.clockHand (some f) }

/-- `ClockReplacer::Unpin(f)`: update a known frame, otherwise insert it
unpinned at the hand and bump the counter. -/
def Unpin (r : ClockReplacer) (f : Nat) : ClockReplacer :=
  if (framesLookup r.frames f).isSome then
    setUnpinFrameAttributes r f
  else
    let r' := prepareToInsertAtHand r
    { r' with frames := (f, ⟨false, false⟩) :: r'.frames
            , clock := r'.clock.set r'.clockHand (some f)
            , victimizable := r'.victimizable + 1 }

/-- `ClockReplacer::Size()`. -/
def Size (r : ClockReplacer) : Int :=
  r.victimizable

/-- One step of the killer hand: `++killerHand; if == size then 0`. -/
def wrapInc (k n : Nat) : Nat :=
  if k + 1 = n then 0 else k + 1

/-- The scan loop of `ClockReplacer::Victim`, with explicit fuel.  Each
iteration re-checks `victimizable_`, examines the slot at the killer hand,
skips empty slots and pinned frames, clears the reference bit of a
referenced unpinned frame, and victimizes an unreferenced unpinned frame.
Running out of fuel models the source looping without returning. -/
def victimLoop : ClockReplacer → Nat → Nat → Option Nat × ClockReplacer
  | r, _, 0 => (none, r)
  | r, kh, fuel + 1 =>
    if r.victimizable ≠ 0 then
      match r.clock.getD kh none with
      | some cur =>
        let cf := framesGetD r.frames cur
        if cf.pinned then
          victimLoop r (wrapInc kh r.clock.length) fuel
        else if cf.referenced then
          victimLoop { r with frames := framesUpdate r.frames cur ⟨cf.pinned, false⟩ }
            (wrapInc kh r.clock.length) fuel
        else
          (some cur,
            { r with victimizable := r.victimizable - 1
                   , clock := r.clock.set kh none
                   , freeList := insertFreeList r.freeList kh
                   , frames := framesErase r.frames cur
                   , clockHand := kh })
      | none => victimLoop r (wrapInc kh r.clock.length) fuel
    else (none, r)

/-- `ClockReplacer::Victim(out)`: scan starting one past the hand.  The
fuel `2·size + 1` is sufficient for every state whose victimizable counter
matches the unpinned frames actually present in the ring (two passes over
the ring find a victim); the proofs below exhibit a reachable state where
no fuel suffices, i.e. where the source loops forever. -/
def Victim (r : ClockReplacer) : Option Nat × ClockReplacer :=
  victimLoop r (wrapInc r.clockHand r.clock.length) (2 * r.clock.length + 1)

end ClockReplacer

/-! ## The buffer pool manager (`buffer_pool_manager.cpp`) -/

/-- One element of the frame array `pages_` (class `Page`).
Modelled from the spec: the `Page` class itself is not under `src/`; per
§3 and §4.1 of the specification it carries the resident page id (with
`INVALID_PAGE_ID = -1`), a non-negative pin count, the dirty flag and a
`PAGE_SIZE` byte buffer that `ResetMemory` zeroes, and a default
constructed `Page` is empty with zeroed bytes. -/
structure Page where
  page_id : Int
  pin_count : Nat
  is_dirty : Bool
  data : Nat
deriving Repr, DecidableEq

/-- A freshly wiped / default-constructed frame. -/
def cleanPage : Page :=
  ⟨-1, 0, false, 0⟩

/-- Association-list lookup for the page table (and the disk map). -/
def ptLookup : List (Int × Nat) → Int → Option Nat
  | [], _ => none
  | (q, f) :: rest, p => if q = p then some f else ptLookup rest p

/-- `page_table_.insert({p, f})`: like `std::unordered_map::insert`, a
no-op when the key is already present. -/
def ptInsert (pt : List (Int × Nat)) (p : Int) (f : Nat) : List (Int × Nat) :=
  if (ptLookup pt p).isSome then pt else (p, f) :: pt

/-- `page_table_.erase(it)`: remove the entry with key `p`. -/
def ptErase (pt : List (Int × Nat)) (p : Int) : List (Int × Nat) :=
  pt.filter fun q => q.1 ≠ p

/-- Disk contents lookup: a page never written reads as zeroed bytes. -/
def diskRead : List (Int × Nat) → Int → Nat
  | [], _ => 0
  | (q, v) :: rest, p => if q = p then v else diskRead rest p

/-- `DiskManager::WritePage`.  Modelled from the spec (§6): the disk
manager is an external collaborator; writing replaces the stored bytes of
the page. -/
def diskWrite (d : List (Int × Nat)) (p : Int) (v : Nat) : List (Int × Nat) :=
  (p, v) :: d

/-- The state of `BufferPoolManager`: the frame array, the replacer, the
LIFO free list (`std::stack`, head = top), the page table, plus the
external disk manager state.  Modelled from the spec (§6): `AllocatePage`
returns fresh, monotonically increasing page ids starting at 0, and
`DeallocatePage` is a no-op. -/
structure BufferPoolManager where
  pool_size : Nat
  pages : List Page
  replacer : ClockReplacer
  free_list : List Nat
  page_table : List (Int × Nat)
  disk : List (Int × Nat)
  nextPageId : Int
deriving Repr, DecidableEq

namespace BufferPoolManager

/-- `pages_[f]` read access. -/
def getPage (s : BufferPoolManager) (f : Nat) : Page :=
  s.pages.getD f cleanPage

/-- `pages_[f] = pg` write access. -/
def setPage (s : BufferPoolManager) (f : Nat) (pg : Page) : BufferPoolManager :=
  { s with pages := s.pages.set f pg }

/-- The constructor: every frame on the free list (pushed in index order,
so the top of the stack is `pool_size - 1`), frames empty and clean. -/
def initBPM (n : Nat) : BufferPoolManager where
  pool_size := n
  pages := List.replicate n cleanPage
  replacer := ClockReplacer.init n
  free_list := (List.range n).reverse
  page_table := []
  disk := []
  nextPageId := 0

/-- `wipePage(it)` where `it` maps `pid ↦ frameId`: write back if dirty,
zero the bytes, reset the metadata, drop the page-table entry, push the
frame on the free list. -/
def wipePage (s : BufferPoolManager) (pid : Int) (frameId : Nat) : BufferPoolManager :=
  let pg := getPage s frameId
  let s1 := if pg.is_dirty then { s with disk := diskWrite s.disk pg.page_id pg.data } else s
  { s1 with pages := s1.pages.set frameId cleanPage
          , page_table := ptErase s1.page_table pid
          , free_list := frameId :: s1.free_list }

/-- `victimizeFrame()`: ask the replacer for a victim and wipe it.  The
page-table lookup of the victim's page id is asserted to succeed in the
source; the release embedding skips the wipe if it does not. -/
def victimizeFrame (s : BufferPoolManager) : Bool × BufferPoolManager :=
  match ClockReplacer.Victim s.replacer with
  | (none, r') => (false, { s with replacer := r' })
  | (some f, r') =>
    let s1 := { s with replacer := r' }
    match ptLookup s1.page_table (getPage s1 f).page_id with
    | some f2 => (true, wipePage s1 (getPage s1 f).page_id f2)
    | none => (true, s1)

/-- `FetchPageImpl(pid)`: on a hit bump the pin count and pin the frame in
the replacer; on a miss obtain a frame (free list first, else eviction),
read the page from disk, pin it, install the page-table entry. -/
def FetchPageImpl (s : BufferPoolManager) (pid : Int) : Option Nat × BufferPoolManager :=
  match ptLookup s.page_table pid with
  | some f =>
    let pg := getPage s f
    let s1 := setPage s f { pg with pin_count := pg.pin_count + 1 }
    let s2 := { s1 with page_table := ptInsert s1.page_table pid f }
    (some f, { s2 with replacer := ClockReplacer.Pin s2.replacer f })
  | none =>
    let (ok, s1) := if s.free_list = [] then victimizeFrame s else (true, s)
    if ok = false then (none, s1)
    else
      match s1.free_list with
      | [] => (none, s1)
      | f :: rest =>
        let s2 := { s1 with free_list := rest }
        let pg := getPage s2 f
        let s3 := setPage s2 f
          { pg with page_id := pid, data := diskRead s2.disk pid, pin_count := 1 }
        let s4 := { s3 with page_table := ptInsert s3.page_table pid f }
        (some f, { s4 with replacer := ClockReplacer.Pin s4.replacer f })

/-- `UnpinPageImpl(pid, is_dirty)`: unknown page ids return false; the
dirty hint is or-ed into the flag before the zero-pin check; a zero pin
count returns false; otherwise decrement, and on reaching zero unpin the
frame in the replacer. -/
def UnpinPageImpl (s : BufferPoolManager) (pid : Int) (d : Bool) : Bool × BufferPoolManager :=
  match ptLookup s.page_table pid with
  | none => (false, s)
  | some f =>
    let pg := getPage s f
    let pg1 : Page := { pg with is_dirty := pg.is_dirty || d }
    let s1 := setPage s f pg1
    if pg1.pin_count = 0 then (false, s1)
    else
      let pg2 : Page := { pg1 with pin_count := pg1.pin_count - 1 }
      let s2 := setPage s1 f pg2
      if pg2.pin_count = 0 then
        (true, { s2 with replacer := ClockReplacer.Unpin s2.replacer f })
      else (true, s2)

/-- `FlushPageImpl(pid)`: unknown page ids return false; otherwise write
the frame's bytes to disk and clear the dirty flag. -/
def FlushPageImpl (s : BufferPoolManager) (pid : Int) : Bool × BufferPoolManager :=
  match ptLookup s.page_table pid with
  | none => (false, s)
  | some f =>
    let pg := getPage s f
    let s1 := { s with disk := diskWrite s.disk pid pg.data }
    (true, setPage s1 f { pg with is_dirty := false })

/-- `NewPageImpl(out)`: obtain a frame (free list first, else eviction);
on failure set `*page_id = 0` and return null; otherwise allocate a fresh
page id, install it, pin the frame.  The frame's dirty flag and bytes are
not touched (see the free-frame cleanliness invariant). -/
def NewPageImpl (s : BufferPoolManager) : Option Nat × Int × BufferPoolManager :=
  let (ok, s1) := if s.free_list = [] then victimizeFrame s else (true, s)
  if ok = false then (none, 0, s1)
  else
    match s1.free_list with
    | [] => (none, 0, s1)
    | f :: rest =>
      let s2 := { s1 with free_list := rest }
      let pid := s2.nextPageId
      let s3 := { s2 with nextPageId := s2.nextPageId + 1 }
      let pg := getPage s3 f
      let s4 := setPage s3 f { pg with page_id := pid, pin_count := pg.pin_count + 1 }
      let s5 := { s4 with page_table := ptInsert s4.page_table pid f }
      (some f, pid, { s5 with replacer := ClockReplacer.Pin s5.replacer f })

/-- `DeletePageImpl(pid)`: non-resident pages are deallocated on disk and
reported deleted; pinned pages are refused; otherwise the dirty flag is
cleared (skipping write-back) and the frame wiped.  The replacer is not
told about the wiped frame. -/
def DeletePageImpl (s : BufferPoolManager) (pid : Int) : Bool × BufferPoolManager :=
  match ptLookup s.page_table pid with
  | none => (true, s)
  | some f =>
    let pg := getPage s f
    if pg.pin_count ≠ 0 then (false, s)
    else
      let s1 := setPage s f { pg with is_dirty := false }
      (true, wipePage s1 pid f)

/-- `FlushAllPagesImpl()`: write every resident frame to disk and clear
its dirty flag, skipping empty frames. -/
def FlushAllPagesImpl (s : BufferPoolManager) : BufferPoolManager :=
  (List.range s.pool_size).foldl
    (fun t i =>
      let pg := getPage t i
      if pg.page_id = -1 then t
      else
        { t with disk := diskWrite t.disk pg.page_id pg.data
               , pages := t.pages.set i { pg with is_dirty := false } })
    s

/-- A caller that holds a handle on resident page `pid` overwriting the
frame's bytes under the frame latch (external use of the returned
handle, §4.1 of the specification). -/
def writeData (s : BufferPoolManager) (pid : Int) (v : Nat) : BufferPoolManager :=
  match ptLookup s.page_table pid with
  | none => s
  | some f =>
    let pg := getPage s f
    if pg.pin_count ≠ 0 then setPage s f { pg with data := v } else s

/-- The frame is in the replacer's victimizable set: present in the frame
map and not pinned there. -/
def inReplacerSet (s : BufferPoolManager) (f : Nat) : Bool :=
  match framesLookup s.replacer.frames f with
  | some cf => !cf.pinned
  | none => false

/-- The public operations, as trace elements. -/
inductive Op where
  | newPage : Op
  | fetch : Int → Op
  | unpin : Int → Bool → Op
  | flush : Int → Op
  | delete : Int → Op
  | flushAll : Op
  | write : Int → Nat → Op
deriving Repr, DecidableEq

/-- Apply one operation (discarding the returned value / handle). -/
def stepOp (s : BufferPoolManager) : Op → BufferPoolManager
  | Op.newPage => (NewPageImpl s).2.2
  | Op.fetch p => (FetchPageImpl s p).2
  | Op.unpin p d => (UnpinPageImpl s p d).2
  | Op.flush p => (FlushPageImpl s p).2
  | Op.delete p => (DeletePageImpl s p).2
  | Op.flushAll => FlushAllPagesImpl s
  | Op.write p v => writeData s p v

/-- Client discipline: every page id passed to `FetchPage` was previously
allocated (handles and page ids originate from the manager, §6); the
other operations tolerate arbitrary page ids. -/
def OkOp (s : BufferPoolManager) : Op → Prop
  | Op.fetch p => p < s.nextPageId
  | _ => True

/-- States reachable from `s` by operations satisfying the client
discipline and the extra per-operation predicate `Q`. -/
inductive RunOk (Q : Op → Prop) : BufferPoolManager → BufferPoolManager → Prop
  | refl (s : BufferPoolManager) : RunOk Q s s
  | step {s t : BufferPoolManager} (op : Op) :
      RunOk Q s t → OkOp t op → Q op → RunOk Q s (stepOp t op)

/-- States reachable from a freshly constructed manager. -/
def Reach (n : Nat) (s : BufferPoolManager) : Prop :=
  RunOk (fun _ => True) (initBPM n) s

end BufferPoolManager

/-! ## Concrete replacer scenarios -/

/-- The state reached in the readmission scenario and the four victims it
produces, built by folding the seventeen calls of the scenario. -/
def readmissionVictims : List (Option Nat) :=
  let r := ClockReplacer.init 6
  let r := ClockReplacer.Unpin r 111
  let r := ClockReplacer.Pin r 222
  let r := ClockReplacer.Unpin r 333
  let (v1, r) := ClockReplacer.Victim r
  let r := ClockReplacer.Unpin r 444
  let r := ClockReplacer.Pin r 111
  let r := ClockReplacer.Unpin r 555
  let r := ClockReplacer.Pin r 333
  let r := ClockReplacer.Unpin r 333
  let r := ClockReplacer.Pin r 444
  let r := ClockReplacer.Unpin r 444
  let (v2, r) := ClockReplacer.Victim r
  let r := ClockReplacer.Pin r 777
  let r := ClockReplacer.Pin r 666
  let (v3, r) := ClockReplacer.Victim r
  let r := ClockReplacer.Unpin r 333
  let (v4, _) := ClockReplacer.Victim r
  [v1, v2, v3, v4]

/-- C6: starting from a fresh ClockReplacer(6), the sequence Unpin(111),
Pin(222), Unpin(333), Victim, Unpin(444), Pin(111), Unpin(555), Pin(333),
Unpin(333), Pin(444), Unpin(444), Victim, Pin(777), Pin(666), Victim,
Unpin(333), Victim makes all four Victim calls succeed, returning frames
111, 555, 333, 444 in that order. -/
theorem readmission_scenario_victims :
    readmissionVictims = [some 111, some 555, some 333, some 444] := by
  decide

/-! ## Simple operation-level properties -/

namespace BufferPoolManager

/-- A `Victim` call on a replacer whose victimizable counter is zero
returns false immediately and leaves the replacer unchanged. -/
theorem victim_of_zero (r : ClockReplacer) (h : r.victimizable = 0) :
    ClockReplacer.Victim r = (none, r) := by
  unfold ClockReplacer.Victim ClockReplacer.victimLoop
  simp [h]

/-- When the replacer has nothing to offer, `victimizeFrame` fails and
changes nothing. -/
theorem victimizeFrame_of_zero (s : BufferPoolManager)
    (h : s.replacer.victimizable = 0) :
    victimizeFrame s = (false, s) := by
  unfold victimizeFrame
  rw [victim_of_zero s.replacer h]

/-- C8: whenever the free list is empty and the replacer's victimizable
set is empty, `NewPage` returns null after setting `*page_id = 0` and
`FetchPage` of a non-resident page returns null, each leaving the whole
manager state (page table, free list, replacer, frames, disk) unchanged. -/
theorem pool_exhausted_returns_null (s : BufferPoolManager)
    (hfree : s.free_list = []) (hvict : s.replacer.victimizable = 0) :
    NewPageImpl s = (none, 0, s) ∧
    ∀ p : Int, ptLookup s.page_table p = none → FetchPageImpl s p = (none, s) := by
  constructor
  · unfold NewPageImpl
    rw [if_pos hfree, victimizeFrame_of_zero s hvict]; rfl
  · intro p hp
    unfold FetchPageImpl
    rw [hp, if_pos hfree, victimizeFrame_of_zero s hvict]; rfl


/-- Witness for C8: the claim's hypotheses hold in a freshly constructed
pool of size zero, where `NewPage` and `FetchPage 5` both fail cleanly. -/
theorem pool_exhausted_returns_null_witness :
    NewPageImpl (initBPM 0) = (none, 0, initBPM 0) ∧
    FetchPageImpl (initBPM 0) 5 = (none, initBPM 0) := by
  have h := pool_exhausted_returns_null (initBPM 0) (by decide) (by decide)
  exact ⟨h.1, h.2 5 (by decide)⟩

/-- The state after creating one page in a one-frame pool and releasing
it with a clean unpin: page 0 resident, pin count zero, not dirty. -/
def overUnpinState : BufferPoolManager :=
  (UnpinPageImpl (NewPageImpl (initBPM 1)).2.2 0 false).2

/-- C2 counterexample: page 0 is resident with pin count zero and a clear
dirty flag, and `UnpinPage(0, true)` returns false as the claim says —
but it flips the frame's `is_dirty` from false to true, because the
source ors the hint into the flag before the zero-pin check.  So the
call does change state, contradicting the claim. -/
theorem overUnpin_changes_dirty :
    ptLookup overUnpinState.page_table 0 = some 0 ∧
    (getPage overUnpinState 0).pin_count = 0 ∧
    (getPage overUnpinState 0).is_dirty = false ∧
    (UnpinPageImpl overUnpinState 0 true).1 = false ∧
    (getPage (UnpinPageImpl overUnpinState 0 true).2 0).is_dirty = true := by
  decide

/-- C2 (amended): for every page `p` resident in frame `f` with
`pin_count = 0`, `UnpinPage(p, d)` returns false and changes nothing
except the frame's dirty flag, which becomes `is_dirty OR d` (so the
state is unchanged exactly when `d` is false or the flag was already
set). -/
theorem unpinPage_zero_pin (s : BufferPoolManager) (p : Int) (f : Nat) (d : Bool)
    (hf : ptLookup s.page_table p = some f)
    (h0 : (getPage s f).pin_count = 0) :
    UnpinPageImpl s p d =
      (false, setPage s f { getPage s f with is_dirty := (getPage s f).is_dirty || d }) := by
  unfold UnpinPageImpl
  rw [hf]
  simp [h0]

/-- Witness for C2 (amended): at the concrete one-frame state, the
amended description matches the computed result. -/
theorem unpinPage_zero_pin_witness :
    UnpinPageImpl overUnpinState 0 true =
      (false, setPage overUnpinState 0
        { getPage overUnpinState 0 with
            is_dirty := (getPage overUnpinState 0).is_dirty || true }) := by
  exact unpinPage_zero_pin overUnpinState 0 0 true (by decide) (by decide)

end BufferPoolManager

namespace BufferPoolManager

/-- Reading back the frame just written. -/
theorem getPage_setPage_self (s : BufferPoolManager) (f : Nat) (pg : Page)
    (h : f < s.pages.length) : getPage (setPage s f pg) f = pg := by
  simp [getPage, setPage, List.getD, List.getElem?_set_self', h]

/-- Writing one frame leaves every other frame unchanged. -/
theorem getPage_setPage_ne (s : BufferPoolManager) (f g : Nat) (pg : Page)
    (h : g ≠ f) : getPage (setPage s f pg) g = getPage s g := by
  simp [getPage, setPage, List.getD, List.getElem?_set_ne (fun he => h he.symm)]

/-- Inserting a key that is already present is a no-op. -/
theorem ptInsert_present (pt : List (Int × Nat)) (p : Int) (f g : Nat)
    (h : ptLookup pt p = some g) : ptInsert pt p f = pt := by
  unfold ptInsert
  rw [h]
  rfl

/-- Shape of `UnpinPage` on a resident page with pin count zero: returns
false having or-ed the hint into the dirty flag. -/
theorem unpin_zero_shape (s : BufferPoolManager) (p : Int) (f : Nat) (d : Bool)
    (hf : ptLookup s.page_table p = some f)
    (h0 : (getPage s f).pin_count = 0) :
    UnpinPageImpl s p d =
      (false, setPage s f { getPage s f with is_dirty := (getPage s f).is_dirty || d }) := by
  unfold UnpinPageImpl
  rw [hf]
  exact if_pos h0

/-- Shape of `UnpinPage` on a resident page with positive pin count:
returns true, decrements the pin count, ors the hint into the dirty
flag, and calls `Replacer::Unpin` exactly when the count reached zero. -/
theorem unpin_pos_shape (s : BufferPoolManager) (p : Int) (f : Nat) (d : Bool)
    (hf : ptLookup s.page_table p = some f)
    (h0 : (getPage s f).pin_count ≠ 0) :
    (UnpinPageImpl s p d).1 = true ∧
    (UnpinPageImpl s p d).2.pages =
      s.pages.set f
        ({ getPage s f with
            is_dirty := (getPage s f).is_dirty || d
            pin_count := (getPage s f).pin_count - 1 }) ∧
    (UnpinPageImpl s p d).2.replacer =
      (if (getPage s f).pin_count - 1 = 0 then ClockReplacer.Unpin s.replacer f
       else s.replacer) ∧
    (UnpinPageImpl s p d).2.page_table = s.page_table ∧
    (UnpinPageImpl s p d).2.free_list = s.free_list ∧
    (UnpinPageImpl s p d).2.disk = s.disk ∧
    (UnpinPageImpl s p d).2.nextPageId = s.nextPageId ∧
    (UnpinPageImpl s p d).2.pool_size = s.pool_size := by
  by_cases h1 : (getPage s f).pin_count - 1 = 0 <;>
    refine ⟨?_, ?_, ?_, ?_, ?_, ?_, ?_, ?_⟩ <;>
    simp [UnpinPageImpl, hf, h0, h1, setPage, List.set_set]

end BufferPoolManager

namespace BufferPoolManager

/-- The dirty flag of the frame holding page `p` (false when
non-resident). -/
def dirtyOf (s : BufferPoolManager) (p : Int) : Bool :=
  match ptLookup s.page_table p with
  | some f => (getPage s f).is_dirty
  | none => false

/-- `setPage` leaves every field except `pages` unchanged. -/
theorem setPage_page_table (s : BufferPoolManager) (f : Nat) (pg : Page) :
    (setPage s f pg).page_table = s.page_table := rfl

/-- `List.getD` after setting the same index. -/
theorem getD_set_self (l : List Page) (f : Nat) (pg : Page) (h : f < l.length) :
    (l.set f pg).getD f cleanPage = pg := by
  simp [List.getD, List.getElem?_set_self', h]

/-- One `UnpinPage(p, d)` call on a resident page ors the hint into the
frame's dirty flag and preserves residency and the frame count. -/
theorem unpin_dirty_or (s : BufferPoolManager) (p : Int) (f : Nat) (d : Bool)
    (hf : ptLookup s.page_table p = some f) (hlt : f < s.pages.length) :
    dirtyOf (UnpinPageImpl s p d).2 p = (dirtyOf s p || d) ∧
    (UnpinPageImpl s p d).2.page_table = s.page_table ∧
    (UnpinPageImpl s p d).2.pages.length = s.pages.length := by
  have hd : dirtyOf s p = (getPage s f).is_dirty := by
    unfold dirtyOf; rw [hf]
  by_cases h0 : (getPage s f).pin_count = 0
  · rw [unpin_zero_shape s p f d hf h0]
    refine ⟨?_, rfl, by simp [setPage]⟩
    have hgs := getPage_setPage_self s f
      ({ getPage s f with is_dirty := (getPage s f).is_dirty || d }) hlt
    simp [dirtyOf, hf, setPage_page_table, hgs]
  · obtain ⟨-, hpages, -, hpt, -⟩ := unpin_pos_shape s p f d hf h0
    refine ⟨?_, hpt, by rw [hpages]; simp⟩
    have hgs : getPage (UnpinPageImpl s p d).2 f =
        ({ getPage s f with
            is_dirty := (getPage s f).is_dirty || d
            pin_count := (getPage s f).pin_count - 1 }) := by
      unfold getPage
      rw [hpages, getD_set_self _ _ _ hlt]
      rfl
    simp [dirtyOf, hf, hpt, hgs]

/-- Iterated `UnpinPage(p, false)` calls. -/
def unpinFalseIter (p : Int) : Nat → BufferPoolManager → BufferPoolManager
  | 0, s => s
  | k + 1, s => unpinFalseIter p k (UnpinPageImpl s p false).2

/-- C4: for every resident page `p`, each `UnpinPage(p, hint)` computes
`is_dirty := is_dirty OR hint`, so after `UnpinPage(p, true)` any number
of later `UnpinPage(p, false)` calls leaves the frame's dirty flag true:
a truthful true hint is never overwritten by a later false hint. -/
theorem unpin_dirty_sticky (s : BufferPoolManager) (p : Int) (f : Nat)
    (hf : ptLookup s.page_table p = some f) (hlt : f < s.pages.length) :
    (∀ d : Bool, dirtyOf (UnpinPageImpl s p d).2 p = (dirtyOf s p || d)) ∧
    ∀ k : Nat, dirtyOf (unpinFalseIter p k (UnpinPageImpl s p true).2) p = true := by
  refine ⟨fun d => (unpin_dirty_or s p f d hf hlt).1, fun k => ?_⟩
  have main : ∀ (k : Nat) (t : BufferPoolManager), dirtyOf t p = true →
      ptLookup t.page_table p = some f → f < t.pages.length →
      dirtyOf (unpinFalseIter p k t) p = true := by
    intro k
    induction k with
    | zero => intro t ht _ _; exact ht
    | succ k ih =>
      intro t ht hres hlen
      obtain ⟨h1, h2, h3⟩ := unpin_dirty_or t p f false hres hlen
      exact ih _ (by rw [h1, ht]; rfl) (by rw [h2]; exact hres) (by rw [h3]; exact hlen)
  obtain ⟨h1, h2, h3⟩ := unpin_dirty_or s p f true hf hlt
  exact main k _ (by rw [h1]; simp) (by rw [h2]; exact hf) (by rw [h3]; exact hlt)

/-- Witness for C4: in the one-frame pool with page 0 resident, the
dirty-or law holds and three clean unpins после a dirty one leave the
page dirty. -/
theorem unpin_dirty_sticky_witness :
    (∀ d : Bool, dirtyOf (UnpinPageImpl overUnpinState 0 d).2 0 = (dirtyOf overUnpinState 0 || d)) ∧
    ∀ k : Nat, dirtyOf (unpinFalseIter 0 k (UnpinPageImpl overUnpinState 0 true).2) 0 = true := by
  exact unpin_dirty_sticky overUnpinState 0 0 (by decide) (by decide)

end BufferPoolManager

namespace BufferPoolManager

/-- Reading the disk entry just written. -/
theorem diskRead_write_self (d : List (Int × Nat)) (p : Int) (v : Nat) :
    diskRead (diskWrite d p v) p = v := by
  simp [diskRead, diskWrite]

/-- Shape of `FlushPage` on a resident page. -/
theorem flush_resident_shape (s : BufferPoolManager) (p : Int) (f : Nat)
    (hf : ptLookup s.page_table p = some f) :
    FlushPageImpl s p =
      (true, { setPage s f ({ getPage s f with is_dirty := false }) with
               disk := diskWrite s.disk p (getPage s f).data }) := by
  unfold FlushPageImpl
  rw [hf]
  rfl

/-- C7: for every resident page `p` (frame `f`), `FlushPage(p)` writes the
frame's current bytes to disk under `p`, clears `is_dirty`, and returns
true, while the frame's pin count, page id and bytes, every other frame,
the page table, the free list, and the replacer are unchanged; for every
`p` not in the page table, `FlushPage(p)` returns false and changes
nothing. -/
theorem flushPage_spec (s : BufferPoolManager) (p : Int) :
    (∀ f, ptLookup s.page_table p = some f → f < s.pages.length →
      (FlushPageImpl s p).1 = true ∧
      diskRead (FlushPageImpl s p).2.disk p = (getPage s f).data ∧
      getPage (FlushPageImpl s p).2 f = ({ getPage s f with is_dirty := false }) ∧
      (∀ g, g ≠ f → getPage (FlushPageImpl s p).2 g = getPage s g) ∧
      (FlushPageImpl s p).2.page_table = s.page_table ∧
      (FlushPageImpl s p).2.free_list = s.free_list ∧
      (FlushPageImpl s p).2.replacer = s.replacer) ∧
    (ptLookup s.page_table p = none → FlushPageImpl s p = (false, s)) := by
  constructor
  · intro f hf hlt
    rw [flush_resident_shape s p f hf]
    refine ⟨rfl, diskRead_write_self _ _ _, ?_, ?_, rfl, rfl, rfl⟩
    · show getPage (setPage s f _) f = _
      exact getPage_setPage_self s f _ hlt
    · intro g hg
      show getPage (setPage s f _) g = _
      exact getPage_setPage_ne s f g _ hg
  · intro hn
    unfold FlushPageImpl
    rw [hn]

/-- Witness for C7: in the one-frame pool, flushing resident page 0
shows the full specification, and flushing the unknown page 7 fails. -/
theorem flushPage_spec_witness :
    ((FlushPageImpl overUnpinState 0).1 = true ∧
      diskRead (FlushPageImpl overUnpinState 0).2.disk 0 = (getPage overUnpinState 0).data ∧
      getPage (FlushPageImpl overUnpinState 0).2 0 =
        ({ getPage overUnpinState 0 with is_dirty := false }) ∧
      (∀ g, g ≠ 0 → getPage (FlushPageImpl overUnpinState 0).2 g = getPage overUnpinState g) ∧
      (FlushPageImpl overUnpinState 0).2.page_table = overUnpinState.page_table ∧
      (FlushPageImpl overUnpinState 0).2.free_list = overUnpinState.free_list ∧
      (FlushPageImpl overUnpinState 0).2.replacer = overUnpinState.replacer) ∧
    FlushPageImpl overUnpinState 7 = (false, overUnpinState) := by
  exact ⟨(flushPage_spec overUnpinState 0).1 0 (by decide) (by decide),
         (flushPage_spec overUnpinState 7).2 (by decide)⟩

end BufferPoolManager

/-! ## Unpin order and the scan start (claim C5) -/

namespace ClockReplacer

/-- The distinct frames of `L` in order of first occurrence. -/
def firstOccurrences (L : List Nat) : List Nat :=
  L.foldl (fun acc x => if x ∈ acc then acc else acc ++ [x]) []

/-- The replacer state after unpinning the distinct frames `occs` in
order into a fresh replacer of `m` slots: the frames occupy the first
slots in unpin order, the hand rests on the last insertion, the tail of
the ring is empty and on the free list, and every frame is unpinned and
unreferenced. -/
def cleanState (m : Nat) (occs : List Nat) : ClockReplacer where
  clockHand := occs.length - 1
  victimizable := occs.length
  clock := occs.map some ++ List.replicate (m - occs.length) none
  freeList := List.range' occs.length (m - occs.length)
  frames := (occs.map (fun o => (o, (⟨false, false⟩ : ClockFrame)))).reverse

/-- A fresh replacer is the clean state of no frames. -/
theorem init_eq_cleanState (m : Nat) : init m = cleanState m [] := by
  simp [init, cleanState, List.range_eq_range']

/-- Looking up any key of an association list whose values are all `v`
yields `v`. -/
theorem framesLookup_const (fr : List (Nat × ClockFrame)) (x : Nat) (v : ClockFrame)
    (hall : ∀ e ∈ fr, e.2 = v) (hx : x ∈ fr.map Prod.fst) :
    framesLookup fr x = some v := by
  induction fr with
  | nil => simp at hx
  | cons e rest ih =>
    rcases e with ⟨g, cf⟩
    by_cases hg : g = x
    · have : cf = v := hall ⟨g, cf⟩ (by simp)
      simp [framesLookup, hg, this]
    · have hx' : x ∈ rest.map Prod.fst := by
        rcases List.mem_map.mp hx with ⟨⟨g', cf'⟩, hmem, hfst⟩
        rcases List.mem_cons.mp hmem with h | h
        · exfalso; apply hg; injection h with h1 h2; rw [← h1]; exact hfst
        · exact List.mem_map.mpr ⟨⟨g', cf'⟩, h, hfst⟩
      simp only [framesLookup, if_neg hg]
      exact ih (fun e he => hall e (List.mem_cons_of_mem _ he)) hx'

/-- Lookup of an absent key fails. -/
theorem framesLookup_not_mem (fr : List (Nat × ClockFrame)) (x : Nat)
    (hx : x ∉ fr.map Prod.fst) : framesLookup fr x = none := by
  induction fr with
  | nil => rfl
  | cons e rest ih =>
    rcases e with ⟨g, cf⟩
    have hg : g ≠ x := fun h => hx (by simp [h])
    simp only [framesLookup, if_neg hg]
    exact ih fun h => hx (by simp [h])

/-- Rewriting every value of an association list to the value it already
has is the identity. -/
theorem framesUpdate_const (fr : List (Nat × ClockFrame)) (x : Nat) (v : ClockFrame)
    (hall : ∀ e ∈ fr, e.2 = v) : framesUpdate fr x v = fr := by
  induction fr with
  | nil => rfl
  | cons e rest ih =>
    have hv : e.2 = v := hall e (by simp)
    have ht : framesUpdate rest x v = rest := ih fun e2 he => hall e2 (by simp [he])
    rcases e with ⟨g, cf⟩
    by_cases hg : g = x
    · simp only [framesUpdate, List.map_cons] at ht ⊢
      subst hg
      simp only [if_pos rfl, ht]
      have hv' : cf = v := hv
      rw [hv']
      simp
    · simp only [framesUpdate, List.map_cons] at ht ⊢
      simp [hg, ht]

end ClockReplacer

namespace ClockReplacer

/-- When every list entry in `[b, e)` exceeds `val`, the search returns
`b` (the source walks down to the left end). -/
theorem binarySearchAux_all_gt (fl : List Nat) (val : Nat) :
    ∀ (fuel b e : Nat), (∀ i, b ≤ i → i < e → val < fl.getD i 0) →
      binarySearchAux fl val fuel b e = b := by
  intro fuel
  induction fuel with
  | zero => intro b e _; rfl
  | succ fuel ih =>
    intro b e h
    by_cases hbe : b < e
    · have hmid := h (b + (e - b) / 2) (by omega) (by omega)
      simp only [binarySearchAux, if_pos hbe]
      rw [if_neg (by omega), if_neg (by omega)]
      exact ih b _ (fun i h1 h2 => h i h1 (by omega))
    · simp only [binarySearchAux, if_neg hbe]

/-- `getD` inside `range'`. -/
theorem getD_range' (a k i : Nat) (h : i < k) :
    (List.range' a k).getD i 0 = a + i := by
  rw [List.getD_eq_getElem _ _ (by simpa using h)]
  simp

/-- Searching `range' a k` for its head `a` finds index 0. -/
theorem binarySearchAux_range'_head (a k : Nat) :
    ∀ (fuel e : Nat), 0 < e → e ≤ k → e ≤ fuel →
      binarySearchAux (List.range' a k) a fuel 0 e = 0 := by
  intro fuel
  induction fuel with
  | zero => intro e h1 _ h3; omega
  | succ fuel ih =>
    intro e h1 h2 h3
    simp only [binarySearchAux, if_pos h1]
    have hmid : (e - 0) / 2 < e := by omega
    rw [getD_range' a k _ (by omega)]
    by_cases hm : 0 + (e - 0) / 2 = 0
    · rw [hm]
      simp
    · rw [if_neg (by omega), if_neg (by omega)]
      exact ih _ (by omega) (by omega) (by omega)

/-- Removing the head of a sorted run of consecutive slots. -/
theorem removeFreeList_range'_head (a k : Nat) (hk : 0 < k) :
    removeFreeList (List.range' a k) a = List.range' (a + 1) (k - 1) := by
  unfold removeFreeList binarySearchFreeSlots
  rw [binarySearchAux_range'_head a k _ _ (by simpa using hk) (by simp) (by simp)]
  rcases k with _ | k'
  · omega
  · simp [List.range'_succ]

end ClockReplacer


namespace ClockReplacer

/-- Any slot at or past the occupied prefix reads as empty. -/
theorem slot_after (A : List (Option Nat)) (k j : Nat) (h : A.length ≤ j) :
    (A ++ List.replicate k none).getD j none = none := by
  by_cases hj : j < A.length + k
  · rw [List.getD_append_right _ _ _ _ h,
        List.getD_eq_getElem _ _ (by simp; omega)]
    simp
  · rw [List.getD_eq_default]
    simp
    omega

/-- A slot inside the occupied prefix reads back the occupant. -/
theorem slot_map_some (occs : List Nat) (B : List (Option Nat)) (j : Nat)
    (h : j < occs.length) :
    ((occs.map some) ++ B).getD j none = some (occs.getD j 0) := by
  rw [List.getD_append _ _ _ _ (by simpa using h),
      List.getD_eq_getElem _ _ (by simpa using h),
      List.getD_eq_getElem _ _ h]
  simp

/-- `prepareToInsertAtHand` on a clean state with a spare slot: the hand
moves to the first empty slot (one past the occupied prefix) and that
slot is taken off the free list; the ring contents are untouched. -/
theorem prepare_cleanState (m : Nat) (occs : List Nat) (hlt : occs.length < m) :
    prepareToInsertAtHand (cleanState m occs) =
      { cleanState m occs with
          clockHand := occs.length
          freeList := List.range' (occs.length + 1) (m - occs.length - 1) } := by
  rcases occs with _ | ⟨y, t⟩
  · unfold prepareToInsertAtHand
    have hslot : (cleanState m []).clock.getD (cleanState m []).clockHand none = none := by
      show (([] : List Nat).map some ++ List.replicate (m - 0) none).getD 0 none = none
      exact slot_after _ _ _ (by simp)
    rw [if_pos hslot]
    show ({ cleanState m [] with freeList := removeFreeList (cleanState m []).freeList 0 }) = _
    have hfl : (cleanState m []).freeList = List.range' 0 m := by
      simp [cleanState]
    rw [hfl, removeFreeList_range'_head 0 m (by omega)]
    simp [cleanState]
  · have hch : (cleanState m (y :: t)).clockHand = t.length := by
      simp [cleanState]
    have hfl : (cleanState m (y :: t)).freeList =
        List.range' (t.length + 1) (m - (t.length + 1)) := by
      simp [cleanState]
    have hlt' : t.length + 1 < m := by simpa using hlt
    unfold prepareToInsertAtHand
    rw [hch, hfl]
    have hslot : (cleanState m (y :: t)).clock.getD t.length none =
        some ((y :: t).getD t.length 0) := by
      exact slot_map_some _ _ _ (by simp)
    rw [if_neg (by rw [hslot]; simp)]
    have hpos : binarySearchFreeSlots (List.range' (t.length + 1) (m - (t.length + 1)))
        t.length 0 (List.range' (t.length + 1) (m - (t.length + 1))).length = 0 := by
      apply binarySearchAux_all_gt
      intro i h1 h2
      rw [getD_range' _ _ _ (by simpa using h2)]
      omega
    rw [hpos]
    have hg0 : (List.range' (t.length + 1) (m - (t.length + 1))).getD 0 0 = t.length + 1 := by
      rw [getD_range' _ _ _ (by omega)]
    have hck : (cleanState m (y :: t)).clock.length = m := by
      show ((y :: t).map some ++ List.replicate (m - (y :: t).length) none).length = m
      simp
      omega
    have hbub : bubbleClockElement (cleanState m (y :: t)) (t.length + 1) t.length =
        { cleanState m (y :: t) with clockHand := t.length + 1 } := by
      unfold bubbleClockElement
      rw [if_pos (by omega)]
      have hsw : t.length + 1 - (t.length + 1) = 0 := by omega
      have hnm : ¬ (t.length + 1 = m) := by omega
      simp only [hsw, hch, hck, swapDownN, hnm, if_false]
    by_cases hone : 0 + 1 = (List.range' (t.length + 1) (m - (t.length + 1))).length
    · rw [if_pos hone, hg0, hbub]
      have hm1 : (m - (t.length + 1)) = 1 := by
        simpa using hone.symm
      show ({ cleanState m (y :: t) with
                clockHand := t.length + 1
                freeList := (List.range' (t.length + 1) (m - (t.length + 1))).eraseIdx 0 }) = _
      have he : (List.range' (t.length + 1) (m - (t.length + 1))).eraseIdx 0 =
          List.range' ((y :: t).length + 1) (m - (y :: t).length - 1) := by
        rw [hm1]
        simp [List.range'_succ]
        omega
      rw [he]
      simp [cleanState]
    · rw [if_neg hone]
      have hge2 : 2 ≤ m - (t.length + 1) := by
        have : (List.range' (t.length + 1) (m - (t.length + 1))).length = m - (t.length + 1) := by
          simp
        omega
      have hg1 : (List.range' (t.length + 1) (m - (t.length + 1))).getD (0 + 1) 0 = t.length + 2 := by
        rw [getD_range' _ _ _ (by omega)]
      rw [hg0, hg1]
      have c1 : ¬ (t.length > t.length + 1) := by omega
      have c2 : ¬ (t.length > t.length + 2) := by omega
      have c3 : t.length + 1 - t.length < t.length + 2 - t.length := by omega
      simp only [c1, c2, if_false, c3, if_true, hbub]
      show ({ cleanState m (y :: t) with
                clockHand := t.length + 1
                freeList := (List.range' (t.length + 1) (m - (t.length + 1))).eraseIdx 0 }) = _
      have he : (List.range' (t.length + 1) (m - (t.length + 1))).eraseIdx 0 =
          List.range' ((y :: t).length + 1) (m - (y :: t).length - 1) := by
        obtain ⟨k, hk⟩ : ∃ k, m - (t.length + 1) = k + 1 := ⟨m - (t.length + 1) - 1, by omega⟩
        rw [hk]
        simp [List.range'_succ]
        omega
      rw [he]
      simp [cleanState]

end ClockReplacer

namespace ClockReplacer

/-- The keys of the clean frames map are exactly the inserted frames. -/
theorem mem_cleanFrames (occs : List Nat) (x : Nat) :
    x ∈ ((occs.map (fun o => (o, (⟨false, false⟩ : ClockFrame)))).reverse).map Prod.fst ↔
      x ∈ occs := by
  simp [List.map_reverse, List.map_map, Function.comp]

/-- Every value of the clean frames map is unpinned and unreferenced. -/
theorem cleanFrames_const (m : Nat) (occs : List Nat) :
    ∀ e ∈ (cleanState m occs).frames, e.2 = (⟨false, false⟩ : ClockFrame) := by
  intro e he
  simp only [cleanState, List.mem_reverse, List.mem_map] at he
  rcases he with ⟨o, _, rfl⟩
  rfl

/-- Unpinning a frame already present in the clean state changes nothing
(it is already unpinned, and the exchange writes back the same value). -/
theorem unpin_cleanState_mem (m : Nat) (occs : List Nat) (x : Nat) (hx : x ∈ occs) :
    Unpin (cleanState m occs) x = cleanState m occs := by
  have hall := cleanFrames_const m occs
  have hlk : framesLookup (cleanState m occs).frames x = some ⟨false, false⟩ :=
    framesLookup_const _ _ _ hall (by
      show x ∈ _
      exact (mem_cleanFrames occs x).mpr hx)
  unfold Unpin
  rw [hlk]
  simp only [Option.isSome_some, if_true]
  unfold setUnpinFrameAttributes framesGetD
  rw [hlk]
  simp [framesUpdate_const _ _ _ hall]

/-- Unpinning a fresh frame into a clean state with a spare slot appends
it to the occupied prefix. -/
theorem unpin_cleanState_new (m : Nat) (occs : List Nat) (x : Nat)
    (hx : x ∉ occs) (hlt : occs.length < m) :
    Unpin (cleanState m occs) x = cleanState m (occs ++ [x]) := by
  have hlk : framesLookup (cleanState m occs).frames x = none :=
    framesLookup_not_mem _ _ (fun h => hx ((mem_cleanFrames occs x).mp h))
  unfold Unpin
  rw [hlk]
  simp only [Option.isSome_none, Bool.false_eq_true, if_false]
  rw [prepare_cleanState m occs hlt]
  obtain ⟨k, hk⟩ : ∃ k, m - occs.length = k + 1 := ⟨m - occs.length - 1, by omega⟩
  have hclock : ((cleanState m occs).clock).set occs.length (some x) =
      (occs ++ [x]).map some ++ List.replicate (m - (occs ++ [x]).length) none := by
    show ((occs.map some ++ List.replicate (m - occs.length) none).set occs.length (some x)) = _
    rw [List.set_append, if_neg (by simp)]
    rw [hk]
    simp [List.replicate_succ]
    omega
  have hfl2 : List.range' (occs.length + 1) (m - occs.length - 1) =
      List.range' ((occs ++ [x]).length) (m - (occs ++ [x]).length) := by
    simp [Nat.sub_sub]
  have hfr : (x, (⟨false, false⟩ : ClockFrame)) :: (cleanState m occs).frames =
      ((occs ++ [x]).map (fun o => (o, (⟨false, false⟩ : ClockFrame)))).reverse := by
    show _ = ((occs ++ [x]).map _).reverse
    simp [cleanState]
  show ({ cleanState m occs with
            clockHand := occs.length
            freeList := List.range' (occs.length + 1) (m - occs.length - 1)
            frames := (x, ⟨false, false⟩) :: (cleanState m occs).frames
            clock := ((cleanState m occs).clock).set occs.length (some x)
            victimizable := (cleanState m occs).victimizable + 1 } : ClockReplacer) =
    cleanState m (occs ++ [x])
  rw [hclock, hfl2, hfr]
  simp [cleanState]

end ClockReplacer

namespace ClockReplacer

/-- One step of first-occurrence accumulation. -/
def accOcc (acc : List Nat) (x : Nat) : List Nat :=
  if x ∈ acc then acc else acc ++ [x]

/-- Accumulation never shortens the list. -/
theorem accOcc_length_mono (L : List Nat) :
    ∀ acc : List Nat, acc.length ≤ (L.foldl accOcc acc).length := by
  induction L with
  | nil => intro acc; simp
  | cons x L ih =>
    intro acc
    refine le_trans ?_ (ih (accOcc acc x))
    unfold accOcc
    split <;> simp

/-- Accumulation only appends. -/
theorem foldl_accOcc_prefix (L : List Nat) :
    ∀ acc : List Nat, ∃ suff, L.foldl accOcc acc = acc ++ suff := by
  induction L with
  | nil => intro acc; exact ⟨[], by simp⟩
  | cons x L ih =>
    intro acc
    rcases ih (accOcc acc x) with ⟨suff, hs⟩
    by_cases hx : x ∈ acc
    · refine ⟨suff, ?_⟩
      rw [List.foldl_cons, hs]
      unfold accOcc
      rw [if_pos hx]
    · refine ⟨[x] ++ suff, ?_⟩
      rw [List.foldl_cons, hs]
      unfold accOcc
      rw [if_neg hx]
      simp

/-- Folding `Unpin` over a call list from a clean state accumulates the
first occurrences, as long as the distinct frames fit in the ring. -/
theorem foldl_unpin_clean (m : Nat) (L : List Nat) :
    ∀ occs : List Nat, (L.foldl accOcc occs).length ≤ m →
      L.foldl Unpin (cleanState m occs) = cleanState m (L.foldl accOcc occs) := by
  induction L with
  | nil => intro occs _; rfl
  | cons x L ih =>
    intro occs h
    simp only [List.foldl_cons] at h ⊢
    by_cases hx : x ∈ occs
    · have ha : accOcc occs x = occs := by unfold accOcc; rw [if_pos hx]
      rw [ha] at h ⊢
      rw [unpin_cleanState_mem m occs x hx]
      exact ih occs h
    · have ha : accOcc occs x = occs ++ [x] := by unfold accOcc; rw [if_neg hx]
      rw [ha] at h ⊢
      have hlt : occs.length < m := by
        have := accOcc_length_mono L (occs ++ [x])
        simp at this
        omega
      rw [unpin_cleanState_new m occs x hx hlt]
      exact ih (occs ++ [x]) h

/-- A scan step over an empty slot just advances the killer hand. -/
theorem victimLoop_skip_none (r : ClockReplacer) (kh fuel : Nat)
    (hnone : r.clock.getD kh none = none) (hv : r.victimizable ≠ 0) :
    victimLoop r kh (fuel + 1) = victimLoop r (wrapInc kh r.clock.length) fuel := by
  conv_lhs => rw [victimLoop]
  rw [if_pos hv, hnone]

/-- A scan step over an unpinned, unreferenced frame victimizes it. -/
theorem victimLoop_hit (r : ClockReplacer) (kh fuel : Nat) (f : Nat)
    (hv : r.victimizable ≠ 0) (hsome : r.clock.getD kh none = some f)
    (hcf : framesGetD r.frames f = ⟨false, false⟩) :
    (victimLoop r kh (fuel + 1)).1 = some f := by
  conv_lhs => rw [victimLoop]
  rw [if_pos hv]
  simp only [hsome, hcf]
  simp

/-- Scanning a run of empty slots up to the end of the ring lands the
killer hand on slot 0 with one unit of fuel spent per slot. -/
theorem victimLoop_skip_run (r : ClockReplacer) (m : Nat)
    (hm : r.clock.length = m) (hv : r.victimizable ≠ 0) :
    ∀ (t j fuel : Nat), j + t + 1 = m → t + 1 ≤ fuel →
      (∀ i, j ≤ i → i < m → r.clock.getD i none = none) →
      (victimLoop r j fuel).1 = (victimLoop r 0 (fuel - (t + 1))).1 := by
  intro t
  induction t with
  | zero =>
    intro j fuel hj hf hnone
    obtain ⟨fu, rfl⟩ : ∃ fu, fuel = fu + 1 := ⟨fuel - 1, by omega⟩
    rw [victimLoop_skip_none r j fu (hnone j (by omega) (by omega)) hv]
    have : wrapInc j r.clock.length = 0 := by
      unfold wrapInc
      rw [hm, if_pos (by omega)]
    rw [this]
    have harith : fu + 1 - (0 + 1) = fu := by omega
    rw [harith]
  | succ t ih =>
    intro j fuel hj hf hnone
    obtain ⟨fu, rfl⟩ : ∃ fu, fuel = fu + 1 := ⟨fuel - 1, by omega⟩
    rw [victimLoop_skip_none r j fu (hnone j (by omega) (by omega)) hv]
    have hw : wrapInc j r.clock.length = j + 1 := by
      unfold wrapInc
      rw [hm, if_neg (by omega)]
    rw [hw]
    have := ih (j + 1) fu (by omega) (by omega) (fun i h1 h2 => hnone i (by omega) h2)
    rw [this]
    have harith : fu + 1 - (t + 1 + 1) = fu - (t + 1) := by omega
    rw [harith]

/-- The ring of a clean state has exactly `m` slots. -/
theorem cleanState_clock_length (m : Nat) (occs : List Nat)
    (h : occs.length ≤ m) : (cleanState m occs).clock.length = m := by
  show (occs.map some ++ List.replicate (m - occs.length) none).length = m
  simp
  omega

/-- A `Victim` call on the clean state of a nonempty unpin list evicts
the earliest unpinned frame. -/
theorem victim_cleanState (m : Nat) (y : Nat) (t : List Nat)
    (hlen : (y :: t).length ≤ m) :
    (Victim (cleanState m (y :: t))).1 = some y := by
  set d := (y :: t).length with hd
  have hd1 : 1 ≤ d := by simp [hd]
  have hck := cleanState_clock_length m (y :: t) hlen
  have hv : (cleanState m (y :: t)).victimizable ≠ 0 := by
    show ((((y :: t).length : Nat) : Int)) ≠ 0
    omega
  have hslot0 : (cleanState m (y :: t)).clock.getD 0 none = some y := by
    show ((y :: t).map some ++ List.replicate (m - (y :: t).length) none).getD 0 none = some y
    rw [slot_map_some (y :: t) (List.replicate (m - (y :: t).length) none) 0 (by simp)]
    rfl
  have hcf : framesGetD (cleanState m (y :: t)).frames y = ⟨false, false⟩ := by
    unfold framesGetD
    rw [framesLookup_const _ _ _ (cleanFrames_const m (y :: t))
      ((mem_cleanFrames (y :: t) y).mpr (by simp))]
    rfl
  unfold Victim
  rw [hck]
  have hhand : (cleanState m (y :: t)).clockHand = d - 1 := rfl
  rw [hhand]
  by_cases hdm : d = m
  · have hw : wrapInc (d - 1) m = 0 := by
      unfold wrapInc
      rw [if_pos (by omega)]
    rw [hw]
    exact victimLoop_hit _ _ _ _ hv hslot0 hcf
  · have hw : wrapInc (d - 1) m = d := by
      unfold wrapInc
      rw [if_neg (by omega)]
      omega
    rw [hw]
    have hskip := victimLoop_skip_run (cleanState m (y :: t)) m hck hv
      (m - d - 1) d (2 * m + 1) (by omega) (by omega)
      (fun i h1 h2 => by
        have : (y :: t).length ≤ i := by omega
        exact slot_after ((y :: t).map some) _ _ (by simpa using this))
    rw [hskip]
    obtain ⟨fu, hfu⟩ : ∃ fu, 2 * m + 1 - (m - d - 1 + 1) = fu + 1 := ⟨m + d, by omega⟩
    rw [hfu]
    exact victimLoop_hit _ _ _ _ hv hslot0 hcf

end ClockReplacer

namespace ClockReplacer

/-- `firstOccurrences` is the fold of the accumulation step. -/
theorem firstOccurrences_eq (L : List Nat) :
    firstOccurrences L = L.foldl accOcc [] := rfl

/-- A successful scan returns an occupant of the ring and leaves the hand
on its slot. -/
theorem victimLoop_some_hand :
    ∀ (fuel : Nat) (rr : ClockReplacer) (kh f : Nat) (r' : ClockReplacer),
      victimLoop rr kh fuel = (some f, r') →
      ∃ k, k < rr.clock.length ∧ rr.clock.getD k none = some f ∧ r'.clockHand = k := by
  intro fuel
  induction fuel with
  | zero =>
    intro rr kh f r' h
    exact absurd h (by simp [victimLoop])
  | succ fuel ih =>
    intro rr kh f r' h
    simp only [victimLoop] at h
    by_cases hv : rr.victimizable ≠ 0
    · rw [if_pos hv] at h
      rcases hslot : rr.clock.getD kh none with _ | cur
      · simp only [hslot] at h
        exact ih rr _ f r' h
      · simp only [hslot] at h
        by_cases hpin : (framesGetD rr.frames cur).pinned = true
        · rw [if_pos hpin] at h
          exact ih rr _ f r' h
        · rw [if_neg hpin] at h
          by_cases href : (framesGetD rr.frames cur).referenced = true
          · rw [if_pos href] at h
            obtain ⟨k, h1, h2, h3⟩ := ih _ _ f r' h
            exact ⟨k, h1, h2, h3⟩
          · rw [if_neg href] at h
            obtain ⟨hf, hr⟩ := Prod.mk.injEq .. ▸ h
            injection hf with hf
            refine ⟨kh, ?_, by rw [hslot, hf], by rw [← hr]⟩
            by_contra hge
            rw [List.getD_eq_default _ _ (by omega)] at hslot
            exact Option.noConfusion hslot
    · rw [if_neg hv] at h
      exact absurd h (by simp)

/-- C5: after any sequence of `Unpin` calls with no intervening `Pin` or
`Victim` on a fresh replacer whose capacity accommodates the distinct
frames, the next `Victim` returns the frame unpinned earliest (the
sequence's first element); and whenever a `Victim` call succeeds, the
returned frame occupied a ring slot and the hand is left exactly on that
slot, so the next scan begins strictly past it. -/
theorem unpin_order_and_hand :
    (∀ (m : Nat) (L : List Nat), (firstOccurrences L).length ≤ m →
        (Victim (L.foldl Unpin (init m))).1 = L.head?) ∧
    (∀ (r : ClockReplacer) (f : Nat) (r' : ClockReplacer), Victim r = (some f, r') →
        ∃ k, k < r.clock.length ∧ r.clock.getD k none = some f ∧ r'.clockHand = k) := by
  constructor
  · intro m L h
    rcases L with _ | ⟨x, L'⟩
    · show (Victim (init m)).1 = none
      unfold Victim
      simp only [victimLoop]
      rw [if_neg (by simp [init])]
    · obtain ⟨suff, hs⟩ := foldl_accOcc_prefix L' (accOcc [] x)
      have hacc : accOcc [] x = [x] := by unfold accOcc; simp
      have hfo : (x :: L').foldl accOcc [] = x :: suff := by
        rw [hacc] at hs
        rw [List.foldl_cons, hacc, hs]
        simp
      rw [firstOccurrences_eq, hfo] at h
      rw [init_eq_cleanState,
          foldl_unpin_clean m (x :: L') [] (by rw [hfo]; simpa using h), hfo]
      show (Victim (cleanState m (x :: suff))).1 = some x
      exact victim_cleanState m x suff (by simpa using h)
  · intro r f r' h
    exact victimLoop_some_hand _ r _ f r' h

end ClockReplacer

namespace ClockReplacer

/-- Witness for C5: on a fresh two-slot replacer, Unpin 5 then Unpin 7
makes the next Victim return 5; and the concrete successful Victim call
leaves the hand on the victim's slot. -/
theorem unpin_order_and_hand_witness :
    ((firstOccurrences [5, 7]).length ≤ 2 ∧
      (Victim (([5, 7] : List Nat).foldl Unpin (init 2))).1 = some 5) ∧
    ∃ k, k < (([5, 7] : List Nat).foldl Unpin (init 2)).clock.length ∧
      (([5, 7] : List Nat).foldl Unpin (init 2)).clock.getD k none = some 5 ∧
      (Victim (([5, 7] : List Nat).foldl Unpin (init 2))).2.clockHand = k := by
  constructor
  · exact ⟨by decide, unpin_order_and_hand.1 2 [5, 7] (by decide)⟩
  · exact unpin_order_and_hand.2 (([5, 7] : List Nat).foldl Unpin (init 2)) 5
      (Victim (([5, 7] : List Nat).foldl Unpin (init 2))).2 (by decide)

end ClockReplacer

/-! ## A reachable state on which the Victim scan never returns -/

/-- The replacer state after this twelve-call sequence on a fresh
ClockReplacer(4) — all frame ids are valid, and every call is a legal use
of the public interface:
Pin 0, Unpin 0, Unpin 1, Pin 2, Unpin 2, Pin 3, Victim, Victim, Victim,
Unpin 0, Pin 1, Pin 2.
The third Victim leaves `freeList_ = [1, 0, 2]` (the binary-search based
`insertFreeList` places slot 0 after slot 1, out of order), after which
`Unpin 0` and the two final Pins bubble an occupied slot believed free:
frame 0 is overwritten out of the ring while it stays unpinned in
`frames_`, leaving `victimizable_ = 1` with every ring occupant pinned.
In a debug build the final `Pin 2` aborts on
`BUSTUB_ASSERT(!clock_[clockHand_], "clock hand should point to empty slot")`;
in a release build every step is well-defined and produces this state. -/
def corruptedReplacer : ClockReplacer :=
  let r := ClockReplacer.init 4
  let r := ClockReplacer.Pin r 0
  let r := ClockReplacer.Unpin r 0
  let r := ClockReplacer.Unpin r 1
  let r := ClockReplacer.Pin r 2
  let r := ClockReplacer.Unpin r 2
  let r := ClockReplacer.Pin r 3
  let r := (ClockReplacer.Victim r).2
  let r := (ClockReplacer.Victim r).2
  let r := (ClockReplacer.Victim r).2
  let r := ClockReplacer.Unpin r 0
  let r := ClockReplacer.Pin r 1
  let r := ClockReplacer.Pin r 2
  r

/-- C10 (refuted on this input): after the twelve-call sequence above the
victimizable counter is 1, yet every frame occupying a ring slot is
pinned, so the scan of `ClockReplacer::Victim` skips every slot and the
`while (victimizable_)` loop never exits: no amount of fuel makes the
scan return.  The claim says Victim always terminates within two passes
because the counter equals the number of unpinned frames in the ring;
this reachable state breaks that equality and diverges. -/
theorem victim_scan_diverges :
    corruptedReplacer.victimizable = 1 ∧
    corruptedReplacer.clock.all
      (fun o => o.elim true fun f => (framesGetD corruptedReplacer.frames f).pinned) = true ∧
    ∀ (fuel kh : Nat), (ClockReplacer.victimLoop corruptedReplacer kh fuel).1 = none := by
  refine ⟨by decide, by decide, ?_⟩
  intro fuel
  induction fuel with
  | zero => intro kh; rfl
  | succ fuel ih =>
    intro kh
    rcases kh with _ | _ | _ | _ | k
    · exact ih 1
    · exact ih 2
    · exact ih 3
    · exact ih 0
    · exact ih (k + 5)

/-! ## Replacer characterization for the manager invariants -/

namespace ClockReplacer

/-- The pinned flag stored for a frame, when the frame is known to the
replacer.  `lookupPinned r f = some false` says `f` is in the
victimizable set. -/
def lookupPinned (r : ClockReplacer) (g : Nat) : Option Bool :=
  (framesLookup r.frames g).map fun cf => cf.pinned

/-- Updating one key leaves the lookup of other keys alone. -/
theorem framesLookup_update_ne (fr : List (Nat × ClockFrame)) (f g : Nat)
    (v : ClockFrame) (h : g ≠ f) :
    framesLookup (framesUpdate fr f v) g = framesLookup fr g := by
  induction fr with
  | nil => rfl
  | cons e rest ih =>
    rcases e with ⟨k, cf⟩
    show framesLookup ((if k = f then (k, v) else (k, cf)) :: framesUpdate rest f v) g = _
    by_cases hk : k = f
    · rw [if_pos hk]
      show (if k = g then some v else framesLookup (framesUpdate rest f v) g) =
        (if k = g then some cf else framesLookup rest g)
      rw [if_neg (by rw [hk]; exact fun hh => h hh.symm),
          if_neg (by rw [hk]; exact fun hh => h hh.symm)]
      exact ih
    · rw [if_neg hk]
      show (if k = g then some cf else framesLookup (framesUpdate rest f v) g) =
        (if k = g then some cf else framesLookup rest g)
      by_cases hg : k = g
      · rw [if_pos hg, if_pos hg]
      · rw [if_neg hg, if_neg hg]
        exact ih

/-- Updating a present key makes its lookup the new value. -/
theorem framesLookup_update_self (fr : List (Nat × ClockFrame)) (f : Nat)
    (v : ClockFrame) (h : (framesLookup fr f).isSome) :
    framesLookup (framesUpdate fr f v) f = some v := by
  induction fr with
  | nil => simp [framesLookup] at h
  | cons e rest ih =>
    rcases e with ⟨k, cf⟩
    show framesLookup ((if k = f then (k, v) else (k, cf)) :: framesUpdate rest f v) f = some v
    by_cases hk : k = f
    · rw [if_pos hk]
      show (if k = f then some v else framesLookup (framesUpdate rest f v) f) = some v
      rw [if_pos hk]
    · rw [if_neg hk]
      show (if k = f then some cf else framesLookup (framesUpdate rest f v) f) = some v
      rw [if_neg hk]
      have h' : (framesLookup rest f).isSome := by
        have hcons : framesLookup ((k, cf) :: rest) f =
            (if k = f then some cf else framesLookup rest f) := rfl
        rw [hcons, if_neg hk] at h
        exact h
      exact ih h'

/-- Erasing a key removes it from lookup. -/
theorem framesLookup_erase_self (fr : List (Nat × ClockFrame)) (f : Nat) :
    framesLookup (framesErase fr f) f = none := by
  induction fr with
  | nil => rfl
  | cons e rest ih =>
    rcases e with ⟨k, cf⟩
    by_cases hk : k = f
    · have : framesErase ((k, cf) :: rest) f = framesErase rest f := by
        simp [framesErase, List.filter_cons, hk]
      rw [this]
      exact ih
    · have : framesErase ((k, cf) :: rest) f = (k, cf) :: framesErase rest f := by
        simp [framesErase, List.filter_cons, hk]
      rw [this]
      show (if k = f then some cf else framesLookup (framesErase rest f) f) = none
      rw [if_neg hk]
      exact ih

/-- Erasing one key leaves the lookup of other keys alone. -/
theorem framesLookup_erase_ne (fr : List (Nat × ClockFrame)) (f g : Nat)
    (h : g ≠ f) :
    framesLookup (framesErase fr f) g = framesLookup fr g := by
  induction fr with
  | nil => rfl
  | cons e rest ih =>
    rcases e with ⟨k, cf⟩
    by_cases hk : k = f
    · have he : framesErase ((k, cf) :: rest) f = framesErase rest f := by
        simp [framesErase, List.filter_cons, hk]
      rw [he]
      show framesLookup (framesErase rest f) g = (if k = g then some cf else framesLookup rest g)
      rw [if_neg (by rw [hk]; exact fun hh => h hh.symm)]
      exact ih
    · have he : framesErase ((k, cf) :: rest) f = (k, cf) :: framesErase rest f := by
        simp [framesErase, List.filter_cons, hk]
      rw [he]
      show (if k = g then some cf else framesLookup (framesErase rest f) g) =
        (if k = g then some cf else framesLookup rest g)
      by_cases hg : k = g
      · rw [if_pos hg, if_pos hg]
      · rw [if_neg hg, if_neg hg]
        exact ih

end ClockReplacer

namespace ClockReplacer

/-- `prepareToInsertAtHand` never touches the frame map. -/
theorem prepare_frames (r : ClockReplacer) :
    (prepareToInsertAtHand r).frames = r.frames := by
  simp only [prepareToInsertAtHand, bubbleClockElement]
  split_ifs <;> rfl

/-- `Pin` records the frame as pinned and leaves every other frame's
pinned flag alone. -/
theorem Pin_lookupPinned (r : ClockReplacer) (f g : Nat) :
    lookupPinned (Pin r f) g = if g = f then some true else lookupPinned r g := by
  unfold Pin
  by_cases hp : (framesLookup r.frames f).isSome
  · rw [if_pos hp]
    unfold setPinFrameAttributes lookupPinned
    by_cases hg : g = f
    · subst hg
      by_cases hpin : (framesGetD r.frames g).pinned <;>
        simp [hpin, framesLookup_update_self r.frames g _ hp]
    · by_cases hpin : (framesGetD r.frames f).pinned <;>
        simp [hpin, framesLookup_update_ne r.frames f g _ hg, if_neg hg, lookupPinned]
  · rw [if_neg hp]
    show lookupPinned
      ({ prepareToInsertAtHand r with
          frames := (f, ⟨true, false⟩) :: (prepareToInsertAtHand r).frames
          clock := (prepareToInsertAtHand r).clock.set (prepareToInsertAtHand r).clockHand (some f) }) g = _
    unfold lookupPinned
    show ((if f = g then some (⟨true, false⟩ : ClockFrame)
            else framesLookup (prepareToInsertAtHand r).frames g).map fun cf => cf.pinned) = _
    rw [prepare_frames r]
    by_cases hg : g = f
    · rw [if_pos hg.symm, if_pos hg]
      rfl
    · rw [if_neg (fun hh => hg hh.symm), if_neg hg]

/-- `Unpin` records the frame as unpinned and leaves every other frame's
pinned flag alone. -/
theorem Unpin_lookupPinned (r : ClockReplacer) (f g : Nat) :
    lookupPinned (Unpin r f) g = if g = f then some false else lookupPinned r g := by
  unfold Unpin
  by_cases hp : (framesLookup r.frames f).isSome
  · rw [if_pos hp]
    unfold setUnpinFrameAttributes lookupPinned
    by_cases hg : g = f
    · subst hg
      by_cases hpin : (framesGetD r.frames g).pinned <;>
        simp [hpin, framesLookup_update_self r.frames g _ hp]
    · by_cases hpin : (framesGetD r.frames f).pinned <;>
        simp [hpin, framesLookup_update_ne r.frames f g _ hg, if_neg hg, lookupPinned]
  · rw [if_neg hp]
    show lookupPinned
      ({ prepareToInsertAtHand r with
          frames := (f, ⟨false, false⟩) :: (prepareToInsertAtHand r).frames
          clock := (prepareToInsertAtHand r).clock.set (prepareToInsertAtHand r).clockHand (some f)
          victimizable := (prepareToInsertAtHand r).victimizable + 1 }) g = _
    unfold lookupPinned
    show ((if f = g then some (⟨false, false⟩ : ClockFrame)
            else framesLookup (prepareToInsertAtHand r).frames g).map fun cf => cf.pinned) = _
    rw [prepare_frames r]
    by_cases hg : g = f
    · rw [if_pos hg.symm, if_pos hg]
      rfl
    · rw [if_neg (fun hh => hg hh.symm), if_neg hg]

end ClockReplacer

namespace ClockReplacer

/-- An occupant of a ring after `set` was either the written value or an
occupant before. -/
theorem getD_set_occ (c : List (Option Nat)) (i k : Nat) (v : Option Nat) (g : Nat)
    (h : (c.set i v).getD k none = some g) :
    v = some g ∨ ∃ k2, c.getD k2 none = some g := by
  by_cases hk : i = k
  · subst hk
    have h2 : ((c.set i v).get? i).getD none = some g := h
    rw [List.get?_set_eq] at h2
    rcases hc : c.get? i with _ | w
    · rw [hc] at h2
      simp at h2
    · rw [hc] at h2
      simp at h2
      exact Or.inl h2
  · have h2 : ((c.set i v).get? k).getD none = some g := h
    rw [List.get?_set_ne v c hk] at h2
    exact Or.inr ⟨k, h2⟩

/-- Swapping two slots permutes occupants. -/
theorem clockSwap_occ (c : List (Option Nat)) (i j k : Nat) (g : Nat)
    (h : (clockSwap c i j).getD k none = some g) :
    ∃ k2, c.getD k2 none = some g := by
  unfold clockSwap at h
  rcases getD_set_occ _ _ _ _ _ h with h1 | ⟨k2, h2⟩
  · exact ⟨i, h1⟩
  · rcases getD_set_occ _ _ _ _ _ h2 with h3 | ⟨k3, h4⟩
    · exact ⟨j, h3⟩
    · exact ⟨k3, h4⟩

/-- The descending bubble loop only permutes occupants. -/
theorem swapDownN_occ (n : Nat) :
    ∀ (c : List (Option Nat)) (i k g : Nat),
      (swapDownN c i n).getD k none = some g → ∃ k2, c.getD k2 none = some g := by
  induction n with
  | zero => intro c i k g h; exact ⟨k, h⟩
  | succ n ih =>
    intro c i k g h
    obtain ⟨k2, h2⟩ := ih (clockSwap c i (i - 1)) (i - 1) k g h
    exact clockSwap_occ c i (i - 1) k2 g h2

/-- The ascending bubble loop only permutes occupants. -/
theorem swapUpN_occ (n : Nat) :
    ∀ (c : List (Option Nat)) (i k g : Nat),
      (swapUpN c i n).getD k none = some g → ∃ k2, c.getD k2 none = some g := by
  induction n with
  | zero => intro c i k g h; exact ⟨k, h⟩
  | succ n ih =>
    intro c i k g h
    obtain ⟨k2, h2⟩ := ih (clockSwap c i (i + 1)) (i + 1) k g h
    exact clockSwap_occ c i (i + 1) k2 g h2

/-- `setPinFrameAttributes` touches only the frame map and counter. -/
theorem setPin_clock (r : ClockReplacer) (f : Nat) :
    (setPinFrameAttributes r f).clock = r.clock := by
  simp only [setPinFrameAttributes]
  split_ifs <;> rfl

/-- `setUnpinFrameAttributes` touches only the frame map and counter. -/
theorem setUnpin_clock (r : ClockReplacer) (f : Nat) :
    (setUnpinFrameAttributes r f).clock = r.clock := by
  simp only [setUnpinFrameAttributes]
  split_ifs <;> rfl

/-- `prepareToInsertAtHand` only permutes occupants. -/
theorem prepare_occ (r : ClockReplacer) (k g : Nat)
    (h : (prepareToInsertAtHand r).clock.getD k none = some g) :
    ∃ k2, r.clock.getD k2 none = some g := by
  revert h
  simp only [prepareToInsertAtHand, bubbleClockElement]
  split_ifs <;> intro h <;>
    first
      | exact ⟨k, h⟩
      | exact swapDownN_occ _ _ _ _ _ h
      | exact swapUpN_occ _ _ _ _ _ h

/-- An occupant after `Pin f` is `f` or an occupant before. -/
theorem Pin_occ (r : ClockReplacer) (f k g : Nat)
    (h : (Pin r f).clock.getD k none = some g) :
    g = f ∨ ∃ k2, r.clock.getD k2 none = some g := by
  revert h
  unfold Pin
  by_cases hp : (framesLookup r.frames f).isSome
  · rw [if_pos hp]
    intro h
    rw [setPin_clock] at h
    exact Or.inr ⟨k, h⟩
  · rw [if_neg hp]
    intro h
    rcases getD_set_occ _ _ _ _ _ h with h1 | ⟨k2, h2⟩
    · left
      injection h1 with h1
      exact h1.symm
    · exact Or.inr (prepare_occ r k2 g h2)

/-- An occupant after `Unpin f` is `f` or an occupant before. -/
theorem Unpin_occ (r : ClockReplacer) (f k g : Nat)
    (h : (Unpin r f).clock.getD k none = some g) :
    g = f ∨ ∃ k2, r.clock.getD k2 none = some g := by
  revert h
  unfold Unpin
  by_cases hp : (framesLookup r.frames f).isSome
  · rw [if_pos hp]
    intro h
    rw [setUnpin_clock] at h
    exact Or.inr ⟨k, h⟩
  · rw [if_neg hp]
    intro h
    rcases getD_set_occ _ _ _ _ _ h with h1 | ⟨k2, h2⟩
    · left
      injection h1 with h1
      exact h1.symm
    · exact Or.inr (prepare_occ r k2 g h2)

end ClockReplacer

namespace ClockReplacer

/-- A failed scan leaves the ring and every pinned flag unchanged (only
reference bits may have been cleared). -/
theorem victimLoop_none_state :
    ∀ (fuel : Nat) (r : ClockReplacer) (kh : Nat) (r' : ClockReplacer),
      victimLoop r kh fuel = (none, r') →
      r'.clock = r.clock ∧ ∀ g, lookupPinned r' g = lookupPinned r g := by
  intro fuel
  induction fuel with
  | zero =>
    intro r kh r' h
    injection h with h1 h2
    rw [← h2]
    exact ⟨rfl, fun g => rfl⟩
  | succ fuel ih =>
    intro r kh r' h
    simp only [victimLoop] at h
    by_cases hv : r.victimizable ≠ 0
    · rw [if_pos hv] at h
      rcases hslot : r.clock.getD kh none with _ | cur
      · simp only [hslot] at h
        exact ih r _ r' h
      · simp only [hslot] at h
        by_cases hpin : (framesGetD r.frames cur).pinned = true
        · rw [if_pos hpin] at h
          exact ih r _ r' h
        · rw [if_neg hpin] at h
          by_cases href : (framesGetD r.frames cur).referenced = true
          · rw [if_pos href] at h
            have hcur : (framesLookup r.frames cur).isSome := by
              rcases hc : framesLookup r.frames cur with _ | cf0
              · exfalso
                unfold framesGetD at href
                rw [hc] at href
                simp at href
              · simp
            obtain ⟨h1, h2⟩ := ih _ _ r' h
            refine ⟨h1, fun g => ?_⟩
            rw [h2 g]
            by_cases hg : g = cur
            · subst hg
              unfold lookupPinned
              rw [framesLookup_update_self r.frames g _ hcur]
              rcases hc : framesLookup r.frames g with _ | cf0
              · rw [hc] at hcur
                simp at hcur
              · unfold framesGetD
                rw [hc]
                rfl
            · unfold lookupPinned
              rw [framesLookup_update_ne r.frames cur g _ hg]
          · rw [if_neg href] at h
            exact absurd h (by simp)
    · rw [if_neg hv] at h
      injection h with h1 h2
      rw [← h2]
      exact ⟨rfl, fun g => rfl⟩

/-- A successful scan victimizes a frame whose stored pinned flag is not
true, erases it, and clears one ring slot. -/
theorem victimLoop_some_state :
    ∀ (fuel : Nat) (r : ClockReplacer) (kh f : Nat) (r' : ClockReplacer),
      victimLoop r kh fuel = (some f, r') →
      (lookupPinned r f = some true → False) ∧
      (∀ g, lookupPinned r' g = if g = f then none else lookupPinned r g) ∧
      (∀ k g, r'.clock.getD k none = some g → ∃ k2, r.clock.getD k2 none = some g) := by
  intro fuel
  induction fuel with
  | zero =>
    intro r kh f r' h
    exact absurd h (by simp [victimLoop])
  | succ fuel ih =>
    intro r kh f r' h
    simp only [victimLoop] at h
    by_cases hv : r.victimizable ≠ 0
    · rw [if_pos hv] at h
      rcases hslot : r.clock.getD kh none with _ | cur
      · simp only [hslot] at h
        exact ih r _ f r' h
      · simp only [hslot] at h
        by_cases hpin : (framesGetD r.frames cur).pinned = true
        · rw [if_pos hpin] at h
          exact ih r _ f r' h
        · rw [if_neg hpin] at h
          by_cases href : (framesGetD r.frames cur).referenced = true
          · rw [if_pos href] at h
            have hcur : (framesLookup r.frames cur).isSome := by
              rcases hc : framesLookup r.frames cur with _ | cf0
              · exfalso
                unfold framesGetD at href
                rw [hc] at href
                simp at href
              · simp
            have hpinsame : ∀ g,
                lookupPinned { r with
                  frames := framesUpdate r.frames cur
                    ⟨(framesGetD r.frames cur).pinned, false⟩ } g = lookupPinned r g := by
              intro g
              by_cases hg : g = cur
              · subst hg
                unfold lookupPinned
                rw [framesLookup_update_self r.frames g _ hcur]
                rcases hc : framesLookup r.frames g with _ | cf0
                · rw [hc] at hcur
                  simp at hcur
                · unfold framesGetD
                  rw [hc]
                  rfl
              · unfold lookupPinned
                rw [framesLookup_update_ne r.frames cur g _ hg]
            obtain ⟨h1, h2, h3⟩ := ih _ _ f r' h
            refine ⟨fun hl => h1 (by rw [hpinsame f]; exact hl), fun g => ?_, fun k g hk => ?_⟩
            · rw [h2 g, hpinsame g]
            · exact h3 k g hk
          · rw [if_neg href] at h
            injection h with hf hr
            injection hf with hf
            subst hf
            refine ⟨?_, fun g => ?_, fun k g hk => ?_⟩
            · intro hl
              unfold lookupPinned at hl
              rcases hc : framesLookup r.frames cur with _ | cf0
              · rw [hc] at hl
                simp at hl
              · rw [hc] at hl
                simp at hl
                unfold framesGetD at hpin
                rw [hc] at hpin
                exact hpin hl
            · rw [← hr]
              by_cases hg : g = cur
              · subst hg
                unfold lookupPinned
                show (framesLookup (framesErase r.frames g) g).map _ = _
                rw [framesLookup_erase_self, if_pos rfl]
                rfl
              · unfold lookupPinned
                show (framesLookup (framesErase r.frames cur) g).map _ = _
                rw [framesLookup_erase_ne r.frames cur g hg, if_neg hg]
            · rw [← hr] at hk
              rcases getD_set_occ _ _ _ _ _ hk with h5 | ⟨k2, h6⟩
              · exact absurd h5 (by simp)
              · exact ⟨k2, h6⟩
    · rw [if_neg hv] at h
      exact absurd h (by simp)

end ClockReplacer

namespace ClockReplacer

/-- A successful scan's victim occupied some ring slot beforehand. -/
theorem victimLoop_some_occ :
    ∀ (fuel : Nat) (r : ClockReplacer) (kh f : Nat) (r' : ClockReplacer),
      victimLoop r kh fuel = (some f, r') →
      ∃ k, r.clock.getD k none = some f := by
  intro fuel
  induction fuel with
  | zero =>
    intro r kh f r' h
    exact absurd h (by simp [victimLoop])
  | succ fuel ih =>
    intro r kh f r' h
    simp only [victimLoop] at h
    by_cases hv : r.victimizable ≠ 0
    · rw [if_pos hv] at h
      rcases hslot : r.clock.getD kh none with _ | cur
      · simp only [hslot] at h
        exact ih r _ f r' h
      · simp only [hslot] at h
        by_cases hpin : (framesGetD r.frames cur).pinned = true
        · rw [if_pos hpin] at h
          exact ih r _ f r' h
        · rw [if_neg hpin] at h
          by_cases href : (framesGetD r.frames cur).referenced = true
          · rw [if_pos href] at h
            exact ih
              { r with frames := framesUpdate r.frames cur ⟨(framesGetD r.frames cur).pinned, false⟩ }
              _ f r' h
          · rw [if_neg href] at h
            injection h with hf hr
            injection hf with hf
            exact ⟨kh, hf ▸ hslot⟩
    · rw [if_neg hv] at h
      exact absurd h (by simp)

/-- `Victim` returning null leaves the ring and all pinned flags alone. -/
theorem Victim_none_state (r r' : ClockReplacer) (h : Victim r = (none, r')) :
    r'.clock = r.clock ∧ ∀ g, lookupPinned r' g = lookupPinned r g :=
  victimLoop_none_state _ r _ r' h

/-- A successful `Victim` call: the victim's stored pinned flag was not
true, the victim came from the ring, the victim is dropped from the frame
map while every other pinned flag is kept, and the surviving ring
occupants all occupied the ring before. -/
theorem Victim_some_state (r : ClockReplacer) (f : Nat) (r' : ClockReplacer)
    (h : Victim r = (some f, r')) :
    (lookupPinned r f = some true → False) ∧
    (∀ g, lookupPinned r' g = if g = f then none else lookupPinned r g) ∧
    (∀ k g, r'.clock.getD k none = some g → ∃ k2, r.clock.getD k2 none = some g) ∧
    (∃ k, r.clock.getD k none = some f) := by
  obtain ⟨h1, h2, h3⟩ := victimLoop_some_state _ r _ f r' h
  exact ⟨h1, h2, h3, victimLoop_some_occ _ r _ f r' h⟩

end ClockReplacer

/-! ## The buffer-pool frame-state invariant -/

/-- Lookup after `page_table_.erase`. -/
theorem ptLookup_erase (pt : List (Int × Nat)) (p q : Int) :
    ptLookup (ptErase pt p) q = if q = p then none else ptLookup pt q := by
  induction pt with
  | nil =>
    show (none : Option Nat) = if q = p then none else none
    split_ifs <;> rfl
  | cons hd tl ih =>
    rcases hd with ⟨a, f⟩
    by_cases hap : a = p
    · rw [show ptErase ((a, f) :: tl) p = ptErase tl p from by
        simp [ptErase, List.filter_cons, hap]]
      rw [ih]
      show _ = if q = p then none else if a = q then some f else ptLookup tl q
      by_cases hqp : q = p
      · rw [if_pos hqp, if_pos hqp]
      · rw [if_neg hqp, if_neg hqp, if_neg (fun h : a = q => hqp (h ▸ hap ▸ rfl))]
    · rw [show ptErase ((a, f) :: tl) p = (a, f) :: ptErase tl p from by
        simp [ptErase, List.filter_cons, hap]]
      show (if a = q then some f else ptLookup (ptErase tl p) q) = _
      rw [ih]
      show _ = if q = p then none else if a = q then some f else ptLookup tl q
      by_cases haq : a = q
      · rw [if_pos haq, if_neg (fun hqp : q = p => hap (haq ▸ hqp ▸ rfl)), if_pos haq]
      · rw [if_neg haq]
        by_cases hqp : q = p
        · rw [if_pos hqp, if_pos hqp]
        · rw [if_neg hqp, if_neg hqp, if_neg haq]

/-- Lookup after `page_table_.insert` of an absent key. -/
theorem ptLookup_insert_absent (pt : List (Int × Nat)) (p : Int) (f : Nat)
    (h : ptLookup pt p = none) (q : Int) :
    ptLookup (ptInsert pt p f) q = if p = q then some f else ptLookup pt q := by
  unfold ptInsert
  rw [h]
  rfl

/-- A key at least as large as every present key is absent. -/
theorem ptLookup_fresh (pt : List (Int × Nat)) (N : Int)
    (h : ∀ p f, ptLookup pt p = some f → p < N) : ptLookup pt N = none := by
  rcases hc : ptLookup pt N with _ | f
  · rfl
  · exact absurd (h N f hc) (lt_irrefl N)

/-- `List.getD` of `replicate` is the element (or the same default). -/
theorem getD_replicate {α : Type} (a : α) :
    ∀ (n f : Nat), (List.replicate n a).getD f a = a := by
  intro n
  induction n with
  | zero => intro f; rfl
  | succ n ih =>
    intro f
    cases f with
    | zero => rfl
    | succ f => exact ih f

/-- `List.getD` after setting a different index. -/
theorem getD_set_ne {α : Type} (l : List α) (f g : Nat) (x d : α) (h : g ≠ f) :
    (l.set f x).getD g d = l.getD g d := by
  show ((l.set f x).get? g).getD d = (l.get? g).getD d
  rw [List.get?_set_ne x l (fun he => h he.symm)]

namespace BufferPoolManager

/-- The frame is in the replacer's set iff the stored pinned flag reads
false. -/
theorem inReplacerSet_iff (s : BufferPoolManager) (f : Nat) :
    inReplacerSet s f = true ↔ ClockReplacer.lookupPinned s.replacer f = some false := by
  unfold inReplacerSet ClockReplacer.lookupPinned
  rcases framesLookup s.replacer.frames f with _ | cf
  · simp
  · rcases cf with ⟨p, rr⟩
    cases p <;> simp

/-- `wipePage` as a record transformation. -/
theorem wipePage_shape (s : BufferPoolManager) (pid : Int) (f : Nat) :
    wipePage s pid f =
      { s with
          disk := if (getPage s f).is_dirty then
              diskWrite s.disk (getPage s f).page_id (getPage s f).data
            else s.disk
          pages := s.pages.set f cleanPage
          page_table := ptErase s.page_table pid
          free_list := f :: s.free_list } := by
  unfold wipePage
  by_cases hd : (getPage s f).is_dirty = true
  · simp only [hd, if_true]
  · simp only [hd, if_false]
    rfl

/-- The frame-state invariant of the buffer pool, maintained by every
public operation under the client discipline `OkOp`: the frame array has
`pool_size` entries; free frames are valid, wiped clean and unduplicated;
every frame is free, pinned or in the replacer's set; the page table maps
each resident page to the frame that holds it and back; ring occupants
are valid frames; a pinned frame is never in the replacer's set; and
every resident page id was allocated. -/
structure Inv (s : BufferPoolManager) : Prop where
  hlen : s.pages.length = s.pool_size
  free_lt : ∀ f ∈ s.free_list, f < s.pool_size
  free_clean : ∀ f ∈ s.free_list, getPage s f = cleanPage
  free_nodup : s.free_list.Nodup
  cover : ∀ f, f < s.pool_size →
    f ∈ s.free_list ∨ 0 < (getPage s f).pin_count ∨
      ClockReplacer.lookupPinned s.replacer f = some false
  pt_frame : ∀ p f, ptLookup s.page_table p = some f →
    f < s.pool_size ∧ (getPage s f).page_id = p ∧ f ∉ s.free_list
  resident_pt : ∀ f, f < s.pool_size → f ∉ s.free_list →
    ptLookup s.page_table (getPage s f).page_id = some f
  occ_lt : ∀ k g, s.replacer.clock.getD k none = some g → g < s.pool_size
  pin_not_member : ∀ f, f < s.pool_size → 0 < (getPage s f).pin_count →
    ClockReplacer.lookupPinned s.replacer f ≠ some false
  pid_lt : ∀ p f, ptLookup s.page_table p = some f → p < s.nextPageId

/-- The constructor establishes the invariant. -/
theorem inv_init (n : Nat) : Inv (initBPM n) := by
  refine ⟨?_, ?_, ?_, ?_, ?_, ?_, ?_, ?_, ?_, ?_⟩
  · simp [initBPM]
  · intro f hf
    simp only [initBPM, List.mem_reverse, List.mem_range] at hf
    exact hf
  · intro f _
    exact getD_replicate cleanPage n f
  · exact List.nodup_reverse.mpr (List.nodup_range n)
  · intro f hf
    left
    simp only [initBPM, List.mem_reverse, List.mem_range]
    exact hf
  · intro p f h
    exact absurd h (by simp [initBPM, ptLookup])
  · intro f hf hnf
    exact absurd (by simp only [initBPM, List.mem_reverse, List.mem_range]; exact hf) hnf
  · intro k g h
    have : (List.replicate n (none : Option Nat)).getD k none = none :=
      getD_replicate none n k
    rw [show (initBPM n).replacer.clock = List.replicate n none from rfl, this] at h
    exact absurd h (by simp)
  · intro f hf hp
    have : getPage (initBPM n) f = cleanPage := getD_replicate cleanPage n f
    rw [this] at hp
    exact absurd hp (by simp [cleanPage])
  · intro p f h
    exact absurd h (by simp [initBPM, ptLookup])

end BufferPoolManager

namespace BufferPoolManager

/-- Rewriting one resident frame without touching its page id or pin
count (and without touching the replacer, the free list or the page
table) preserves the invariant: this covers `FlushPage`, the data write
of a handle holder, and the zero-pin branch of `UnpinPage`. -/
theorem inv_update_resident (s s' : BufferPoolManager) (p : Int) (f : Nat) (pg' : Page)
    (hInv : Inv s) (hres : ptLookup s.page_table p = some f)
    (hpages : s'.pages = s.pages.set f pg')
    (hid : pg'.page_id = (getPage s f).page_id)
    (hpin : pg'.pin_count = (getPage s f).pin_count)
    (hrep : s'.replacer = s.replacer) (hfl : s'.free_list = s.free_list)
    (hpt : s'.page_table = s.page_table) (hps : s'.pool_size = s.pool_size)
    (hN : s.nextPageId ≤ s'.nextPageId) : Inv s' := by
  obtain ⟨hfn, hidf, hnf⟩ := hInv.pt_frame p f hres
  have flt : f < s.pages.length := by rw [hInv.hlen]; exact hfn
  have G : ∀ g, getPage s' g = if g = f then pg' else getPage s g := by
    intro g
    by_cases hg : g = f
    · subst hg
      rw [if_pos rfl]
      show s'.pages.getD g cleanPage = pg'
      rw [hpages]
      exact getD_set_self s.pages g pg' flt
    · rw [if_neg hg]
      show s'.pages.getD g cleanPage = s.pages.getD g cleanPage
      rw [hpages]
      exact getD_set_ne s.pages f g pg' cleanPage hg
  refine ⟨?_, ?_, ?_, ?_, ?_, ?_, ?_, ?_, ?_, ?_⟩
  · rw [hpages, List.length_set, hInv.hlen, hps]
  · intro g hg
    rw [hfl] at hg
    rw [hps]
    exact hInv.free_lt g hg
  · intro g hg
    rw [hfl] at hg
    rw [G g, if_neg (fun he : g = f => hnf (he ▸ hg))]
    exact hInv.free_clean g hg
  · rw [hfl]
    exact hInv.free_nodup
  · intro g hg
    rw [hps] at hg
    rcases hInv.cover g hg with h1 | h1 | h1
    · left
      rw [hfl]
      exact h1
    · right; left
      rw [G g]
      by_cases he : g = f
      · subst he
        rw [if_pos rfl, hpin]
        exact h1
      · rw [if_neg he]
        exact h1
    · right; right
      rw [hrep]
      exact h1
  · intro q g h
    rw [hpt] at h
    obtain ⟨h1, h2, h3⟩ := hInv.pt_frame q g h
    refine ⟨hps ▸ h1, ?_, by rw [hfl]; exact h3⟩
    rw [G g]
    by_cases he : g = f
    · subst he
      rw [if_pos rfl, hid, h2]
    · rw [if_neg he]
      exact h2
  · intro g hg hgnf
    rw [hps] at hg
    rw [hfl] at hgnf
    rw [hpt, G g]
    by_cases he : g = f
    · subst he
      rw [if_pos rfl, hid]
      exact hInv.resident_pt g hg hgnf
    · rw [if_neg he]
      exact hInv.resident_pt g hg hgnf
  · intro k g h
    rw [hrep] at h
    rw [hps]
    exact hInv.occ_lt k g h
  · intro g hg hp
    rw [hps] at hg
    rw [hrep]
    rw [G g] at hp
    by_cases he : g = f
    · subst he
      rw [if_pos rfl, hpin] at hp
      exact hInv.pin_not_member g hg hp
    · rw [if_neg he] at hp
      exact hInv.pin_not_member g hg hp
  · intro q g h
    rw [hpt] at h
    exact lt_of_lt_of_le (hInv.pid_lt q g h) hN

end BufferPoolManager

namespace BufferPoolManager

/-- `FlushPage` preserves the invariant. -/
theorem inv_flush (s : BufferPoolManager) (p : Int) (hInv : Inv s) :
    Inv (FlushPageImpl s p).2 := by
  rcases hc : ptLookup s.page_table p with _ | f
  · have hs : (FlushPageImpl s p).2 = s := by
      unfold FlushPageImpl
      rw [hc]
    rw [hs]
    exact hInv
  · rw [flush_resident_shape s p f hc]
    exact inv_update_resident s _ p f ({ getPage s f with is_dirty := false })
      hInv hc rfl rfl rfl rfl rfl rfl rfl (le_refl _)

/-- A data write through a held handle preserves the invariant. -/
theorem inv_write (s : BufferPoolManager) (p : Int) (v : Nat) (hInv : Inv s) :
    Inv (writeData s p v) := by
  unfold writeData
  rcases hc : ptLookup s.page_table p with _ | f
  · exact hInv
  · simp only []
    by_cases hp : (getPage s f).pin_count ≠ 0
    · rw [if_pos hp]
      exact inv_update_resident s _ p f ({ getPage s f with data := v })
        hInv hc rfl rfl rfl rfl rfl rfl rfl (le_refl _)
    · rw [if_neg hp]
      exact hInv

/-- `UnpinPage` preserves the invariant. -/
theorem inv_unpin (s : BufferPoolManager) (p : Int) (d : Bool) (hInv : Inv s) :
    Inv (UnpinPageImpl s p d).2 := by
  rcases hc : ptLookup s.page_table p with _ | f
  · have hs : (UnpinPageImpl s p d).2 = s := by
      unfold UnpinPageImpl
      rw [hc]
    rw [hs]
    exact hInv
  · by_cases h0 : (getPage s f).pin_count = 0
    · rw [unpin_zero_shape s p f d hc h0]
      exact inv_update_resident s _ p f
        ({ getPage s f with is_dirty := (getPage s f).is_dirty || d })
        hInv hc rfl rfl rfl rfl rfl rfl rfl (le_refl _)
    · obtain ⟨hret, hpages, hrep, hpt, hfl, hdisk, hnpi, hps⟩ :=
        unpin_pos_shape s p f d hc h0
      obtain ⟨hfn, hidf, hnf⟩ := hInv.pt_frame p f hc
      have flt : f < s.pages.length := by rw [hInv.hlen]; exact hfn
      have G : ∀ g, getPage (UnpinPageImpl s p d).2 g =
          if g = f then
            ({ getPage s f with
                is_dirty := (getPage s f).is_dirty || d
                pin_count := (getPage s f).pin_count - 1 })
          else getPage s g := by
        intro g
        by_cases hg : g = f
        · subst hg
          rw [if_pos rfl]
          show (UnpinPageImpl s p d).2.pages.getD g cleanPage = _
          rw [hpages]
          exact getD_set_self s.pages g _ flt
        · rw [if_neg hg]
          show (UnpinPageImpl s p d).2.pages.getD g cleanPage = s.pages.getD g cleanPage
          rw [hpages]
          exact getD_set_ne s.pages f g _ cleanPage hg
      have hrepLP : ∀ g, ClockReplacer.lookupPinned (UnpinPageImpl s p d).2.replacer g =
          if (getPage s f).pin_count - 1 = 0 ∧ g = f then some false
          else ClockReplacer.lookupPinned s.replacer g := by
        intro g
        rw [hrep]
        by_cases hz : (getPage s f).pin_count - 1 = 0
        · rw [if_pos hz, ClockReplacer.Unpin_lookupPinned]
          by_cases hg : g = f
          · rw [if_pos hg, if_pos ⟨hz, hg⟩]
          · rw [if_neg hg, if_neg (fun hh => hg hh.2)]
        · rw [if_neg hz, if_neg (fun hh => hz hh.1)]
      have hrepOcc : ∀ k g, (UnpinPageImpl s p d).2.replacer.clock.getD k none = some g →
          g = f ∨ ∃ k2, s.replacer.clock.getD k2 none = some g := by
        intro k g h
        rw [hrep] at h
        by_cases hz : (getPage s f).pin_count - 1 = 0
        · rw [if_pos hz] at h
          exact ClockReplacer.Unpin_occ s.replacer f k g h
        · rw [if_neg hz] at h
          exact Or.inr ⟨k, h⟩
      refine ⟨?_, ?_, ?_, ?_, ?_, ?_, ?_, ?_, ?_, ?_⟩
      · rw [hpages, List.length_set, hInv.hlen, hps]
      · intro g hg
        rw [hfl] at hg
        rw [hps]
        exact hInv.free_lt g hg
      · intro g hg
        rw [hfl] at hg
        rw [G g, if_neg (fun he : g = f => hnf (he ▸ hg))]
        exact hInv.free_clean g hg
      · rw [hfl]
        exact hInv.free_nodup
      · intro g hg
        rw [hps] at hg
        rcases hInv.cover g hg with h1 | h1 | h1
        · left
          rw [hfl]
          exact h1
        · by_cases he : g = f
          · subst he
            by_cases hz : (getPage s g).pin_count - 1 = 0
            · right; right
              rw [hrepLP g, if_pos ⟨hz, rfl⟩]
            · right; left
              rw [G g, if_pos rfl]
              exact Nat.pos_of_ne_zero hz
          · right; left
            rw [G g, if_neg he]
            exact h1
        · right; right
          rw [hrepLP g]
          by_cases hh : (getPage s f).pin_count - 1 = 0 ∧ g = f
          · rw [if_pos hh]
          · rw [if_neg hh]
            exact h1
      · intro q g h
        rw [hpt] at h
        obtain ⟨h1, h2, h3⟩ := hInv.pt_frame q g h
        refine ⟨hps ▸ h1, ?_, by rw [hfl]; exact h3⟩
        rw [G g]
        by_cases he : g = f
        · subst he
          rw [if_pos rfl]
          exact h2
        · rw [if_neg he]
          exact h2
      · intro g hg hgnf
        rw [hps] at hg
        rw [hfl] at hgnf
        rw [hpt, G g]
        by_cases he : g = f
        · subst he
          rw [if_pos rfl]
          exact hInv.resident_pt g hg hgnf
        · rw [if_neg he]
          exact hInv.resident_pt g hg hgnf
      · intro k g h
        rcases hrepOcc k g h with h1 | ⟨k2, h2⟩
        · rw [h1, hps]
          exact hfn
        · rw [hps]
          exact hInv.occ_lt k2 g h2
      · intro g hg hp
        rw [hps] at hg
        rw [G g] at hp
        rw [hrepLP g]
        by_cases he : g = f
        · subst he
          rw [if_pos rfl] at hp
          have hz : ¬((getPage s g).pin_count - 1 = 0) := by
            intro hz
            rw [hz] at hp
            exact absurd hp (by simp)
          rw [if_neg (fun hh => hz hh.1)]
          exact hInv.pin_not_member g hg (Nat.pos_of_ne_zero h0)
        · rw [if_neg he] at hp
          rw [if_neg (fun hh => he hh.2)]
          exact hInv.pin_not_member g hg hp
      · intro q g h
        rw [hpt] at h
        rw [hnpi]
        exact hInv.pid_lt q g h

end BufferPoolManager

namespace BufferPoolManager

/-- Wiping a resident zero-pin frame onto the free list preserves the
invariant, provided the replacer transformation (none for `DeletePage`,
the victim scan for `victimizeFrame`) keeps the pinned flags of all other
frames and introduces no new ring occupants. -/
theorem inv_wipe (s s' : BufferPoolManager) (pid : Int) (f : Nat)
    (hInv : Inv s) (hres : ptLookup s.page_table pid = some f)
    (hpages : s'.pages = s.pages.set f cleanPage)
    (hpt : s'.page_table = ptErase s.page_table pid)
    (hfl : s'.free_list = f :: s.free_list)
    (hrepLP : ∀ g, g ≠ f → ClockReplacer.lookupPinned s'.replacer g =
      ClockReplacer.lookupPinned s.replacer g)
    (hrepOcc : ∀ k g, s'.replacer.clock.getD k none = some g →
      ∃ k2, s.replacer.clock.getD k2 none = some g)
    (hps : s'.pool_size = s.pool_size) (hN : s'.nextPageId = s.nextPageId) :
    Inv s' := by
  obtain ⟨hfn, hidf, hnf⟩ := hInv.pt_frame pid f hres
  have flt : f < s.pages.length := by rw [hInv.hlen]; exact hfn
  have G : ∀ g, getPage s' g = if g = f then cleanPage else getPage s g := by
    intro g
    by_cases hg : g = f
    · subst hg
      rw [if_pos rfl]
      show s'.pages.getD g cleanPage = cleanPage
      rw [hpages]
      exact getD_set_self s.pages g cleanPage flt
    · rw [if_neg hg]
      show s'.pages.getD g cleanPage = s.pages.getD g cleanPage
      rw [hpages]
      exact getD_set_ne s.pages f g cleanPage cleanPage hg
  have hptL : ∀ q, ptLookup s'.page_table q =
      if q = pid then none else ptLookup s.page_table q := by
    intro q
    rw [hpt]
    exact ptLookup_erase s.page_table pid q
  refine ⟨?_, ?_, ?_, ?_, ?_, ?_, ?_, ?_, ?_, ?_⟩
  · rw [hpages, List.length_set, hInv.hlen, hps]
  · intro g hg
    rw [hfl] at hg
    rw [hps]
    rcases List.mem_cons.mp hg with h1 | h1
    · rw [h1]
      exact hfn
    · exact hInv.free_lt g h1
  · intro g hg
    rw [hfl] at hg
    rcases List.mem_cons.mp hg with h1 | h1
    · rw [G g, if_pos h1]
    · rw [G g, if_neg (fun he : g = f => hnf (he ▸ h1))]
      exact hInv.free_clean g h1
  · rw [hfl]
    exact List.nodup_cons.mpr ⟨hnf, hInv.free_nodup⟩
  · intro g hg
    rw [hps] at hg
    by_cases he : g = f
    · left
      rw [hfl, he]
      exact List.mem_cons_self f s.free_list
    · rcases hInv.cover g hg with h1 | h1 | h1
      · left
        rw [hfl]
        exact List.mem_cons_of_mem f h1
      · right; left
        rw [G g, if_neg he]
        exact h1
      · right; right
        rw [hrepLP g he]
        exact h1
  · intro q g h
    rw [hptL q] at h
    by_cases hq : q = pid
    · rw [if_pos hq] at h
      exact absurd h (by simp)
    · rw [if_neg hq] at h
      obtain ⟨h1, h2, h3⟩ := hInv.pt_frame q g h
      have hgf : g ≠ f := by
        intro he
        subst he
        exact hq (h2 ▸ hidf ▸ rfl)
      refine ⟨hps ▸ h1, ?_, ?_⟩
      · rw [G g, if_neg hgf]
        exact h2
      · rw [hfl]
        intro hmem
        rcases List.mem_cons.mp hmem with hh | hh
        · exact hgf hh
        · exact h3 hh
  · intro g hg hgnf
    rw [hps] at hg
    rw [hfl] at hgnf
    have hgf : g ≠ f := fun he => hgnf (he ▸ List.mem_cons_self f s.free_list)
    have hgold : g ∉ s.free_list := fun hh => hgnf (List.mem_cons_of_mem f hh)
    have hr := hInv.resident_pt g hg hgold
    rw [G g, if_neg hgf, hptL]
    rw [if_neg ?hne]
    · exact hr
    case hne =>
      intro he
      rw [he] at hr
      rw [hres] at hr
      injection hr with hr
      exact hgf hr.symm
  · intro k g h
    obtain ⟨k2, h2⟩ := hrepOcc k g h
    rw [hps]
    exact hInv.occ_lt k2 g h2
  · intro g hg hp
    rw [hps] at hg
    rw [G g] at hp
    by_cases he : g = f
    · rw [if_pos he] at hp
      exact absurd hp (by simp [cleanPage])
    · rw [if_neg he] at hp
      rw [hrepLP g he]
      exact hInv.pin_not_member g hg hp
  · intro q g h
    rw [hptL q] at h
    by_cases hq : q = pid
    · rw [if_pos hq] at h
      exact absurd h (by simp)
    · rw [if_neg hq] at h
      rw [hN]
      exact hInv.pid_lt q g h

end BufferPoolManager

namespace BufferPoolManager

/-- `DeletePage` preserves the invariant. -/
theorem inv_delete (s : BufferPoolManager) (pid : Int) (hInv : Inv s) :
    Inv (DeletePageImpl s pid).2 := by
  rcases hc : ptLookup s.page_table pid with _ | f
  · have hs : (DeletePageImpl s pid).2 = s := by
      unfold DeletePageImpl
      rw [hc]
    rw [hs]
    exact hInv
  · by_cases hp : (getPage s f).pin_count ≠ 0
    · have hs : (DeletePageImpl s pid).2 = s := by
        simp only [DeletePageImpl, hc]
        rw [if_pos hp]
      rw [hs]
      exact hInv
    · have hs : (DeletePageImpl s pid).2 =
          wipePage (setPage s f ({ getPage s f with is_dirty := false })) pid f := by
        simp only [DeletePageImpl, hc]
        rw [if_neg hp]
      rw [hs, wipePage_shape]
      apply inv_wipe s _ pid f hInv hc
      · show (setPage s f ({ getPage s f with is_dirty := false })).pages.set f cleanPage =
          s.pages.set f cleanPage
        show ((s.pages.set f _).set f cleanPage) = s.pages.set f cleanPage
        rw [List.set_set]
      · rfl
      · rfl
      · intro g _
        rfl
      · intro k g h
        exact ⟨k, h⟩
      · rfl
      · rfl

/-- One iteration of the `FlushAllPagesImpl` loop. -/
def flushStep (t : BufferPoolManager) (i : Nat) : BufferPoolManager :=
  let pg := getPage t i
  if pg.page_id = -1 then t
  else
    { t with disk := diskWrite t.disk pg.page_id pg.data
           , pages := t.pages.set i { pg with is_dirty := false } }

/-- `FlushAllPagesImpl` is the fold of the loop body. -/
theorem flushAll_eq_foldl (s : BufferPoolManager) :
    FlushAllPagesImpl s = List.foldl flushStep s (List.range s.pool_size) := rfl

/-- One `FlushAllPages` iteration preserves the invariant. -/
theorem inv_flushAll_step (t : BufferPoolManager) (i : Nat) (hInv : Inv t) :
    Inv (flushStep t i) := by
  simp only [flushStep]
  by_cases h1 : (getPage t i).page_id = -1
  · rw [if_pos h1]
    exact hInv
  · rw [if_neg h1]
    have hi : i < t.pool_size := by
      by_contra hni
      have hle : t.pages.length ≤ i := by rw [hInv.hlen]; omega
      have hcl : getPage t i = cleanPage := List.getD_eq_default t.pages cleanPage hle
      exact h1 (by rw [hcl]; rfl)
    have hnf : i ∉ t.free_list := fun hm => h1 (by rw [hInv.free_clean i hm]; rfl)
    have hres := hInv.resident_pt i hi hnf
    exact inv_update_resident t _ (getPage t i).page_id i
      ({ getPage t i with is_dirty := false })
      hInv hres rfl rfl rfl rfl rfl rfl rfl (le_refl _)

/-- The fold of `FlushAllPages` iterations preserves the invariant. -/
theorem inv_flushAll_foldl (l : List Nat) :
    ∀ t : BufferPoolManager, Inv t → Inv (List.foldl flushStep t l) := by
  induction l with
  | nil => intro t h; exact h
  | cons i l ih =>
    intro t h
    rw [List.foldl_cons]
    exact ih (flushStep t i) (inv_flushAll_step t i h)

/-- `FlushAllPages` preserves the invariant. -/
theorem inv_flushAll (s : BufferPoolManager) (hInv : Inv s) :
    Inv (FlushAllPagesImpl s) := by
  rw [flushAll_eq_foldl]
  exact inv_flushAll_foldl (List.range s.pool_size) s hInv

end BufferPoolManager

namespace BufferPoolManager

/-- Writing one disk page leaves every other page's bytes unchanged. -/
theorem diskRead_write_ne (d : List (Int × Nat)) (p q : Int) (v : Nat)
    (h : q ≠ p) : diskRead (diskWrite d p v) q = diskRead d q := by
  show (if p = q then v else diskRead d q) = diskRead d q
  rw [if_neg (fun he => h he.symm)]

/-- `victimizeFrame` when the replacer reports no victim. -/
theorem victimizeFrame_none_shape (s : BufferPoolManager) (r' : ClockReplacer)
    (hv : ClockReplacer.Victim s.replacer = (none, r')) :
    victimizeFrame s = (false, { s with replacer := r' }) := by
  unfold victimizeFrame
  rw [hv]

/-- `victimizeFrame` when the replacer reports a victim whose page is
resident: the victim frame is wiped. -/
theorem victimizeFrame_some_shape (s : BufferPoolManager) (f : Nat) (r' : ClockReplacer)
    (hv : ClockReplacer.Victim s.replacer = (some f, r'))
    (hres : ptLookup s.page_table (getPage s f).page_id = some f) :
    victimizeFrame s =
      (true, wipePage { s with replacer := r' } (getPage s f).page_id f) := by
  have hg : getPage { s with replacer := r' } f = getPage s f := rfl
  simp only [victimizeFrame, hv, hg, hres]

/-- `victimizeFrame` preserves the invariant when the free list is empty,
reports the frame it freed, and leaves absent pages absent with their
disk bytes intact. -/
theorem inv_victimize (s : BufferPoolManager) (hInv : Inv s) (hfl : s.free_list = []) :
    Inv (victimizeFrame s).2 ∧
    (victimizeFrame s).2.pool_size = s.pool_size ∧
    (victimizeFrame s).2.nextPageId = s.nextPageId ∧
    ((victimizeFrame s).1 = false → (victimizeFrame s).2.free_list = []) ∧
    ((victimizeFrame s).1 = true →
      ∃ f, f < s.pool_size ∧ (victimizeFrame s).2.free_list = [f]) ∧
    (∀ q, ptLookup s.page_table q = none →
      ptLookup (victimizeFrame s).2.page_table q = none) ∧
    (∀ q, ptLookup s.page_table q = none →
      diskRead (victimizeFrame s).2.disk q = diskRead s.disk q) := by
  rcases hv : ClockReplacer.Victim s.replacer with ⟨vres, r'⟩
  rcases vres with _ | f
  · rw [victimizeFrame_none_shape s r' hv]
    obtain ⟨hclock, hLP⟩ := ClockReplacer.Victim_none_state s.replacer r' hv
    refine ⟨⟨hInv.hlen, hInv.free_lt, hInv.free_clean, hInv.free_nodup, ?_,
        hInv.pt_frame, hInv.resident_pt, ?_, ?_, hInv.pid_lt⟩,
      rfl, rfl, fun _ => hfl, fun hh => absurd hh (by simp), fun q hq => hq, fun q _ => rfl⟩
    · intro g hg
      rcases hInv.cover g hg with h1 | h1 | h1
      · exact Or.inl h1
      · exact Or.inr (Or.inl h1)
      · exact Or.inr (Or.inr (by rw [show ({ s with replacer := r' } : BufferPoolManager).replacer = r' from rfl, hLP g]; exact h1))
    · intro k g h
      rw [show ({ s with replacer := r' } : BufferPoolManager).replacer = r' from rfl, hclock] at h
      exact hInv.occ_lt k g h
    · intro g hg hp
      rw [show ({ s with replacer := r' } : BufferPoolManager).replacer = r' from rfl, hLP g]
      exact hInv.pin_not_member g hg hp
  · obtain ⟨hnp, hLP, hocc, ⟨kv, hkv⟩⟩ := ClockReplacer.Victim_some_state s.replacer f r' hv
    have hfn : f < s.pool_size := hInv.occ_lt kv f hkv
    have hnfree : f ∉ s.free_list := by rw [hfl]; exact List.not_mem_nil f
    have hres := hInv.resident_pt f hfn hnfree
    rw [victimizeFrame_some_shape s f r' hv hres]
    have hkey : ∀ q, ptLookup s.page_table q = none → q ≠ (getPage s f).page_id := by
      intro q hq he
      rw [he, hres] at hq
      exact absurd hq (by simp)
    have hInv' : Inv (wipePage { s with replacer := r' } (getPage s f).page_id f) := by
      rw [wipePage_shape]
      apply inv_wipe s _ (getPage s f).page_id f hInv hres
      · rfl
      · rfl
      · rw [hfl]
      · intro g hg
        show ClockReplacer.lookupPinned r' g = _
        rw [hLP g, if_neg hg]
      · intro k g h
        exact hocc k g h
      · rfl
      · rfl
    refine ⟨hInv', by rw [wipePage_shape], by rw [wipePage_shape], fun hh => absurd hh (by simp),
      fun _ => ⟨f, hfn, by rw [wipePage_shape]; show f :: s.free_list = [f]; rw [hfl]⟩, ?_, ?_⟩
    · intro q hq
      rw [wipePage_shape]
      show ptLookup (ptErase s.page_table (getPage s f).page_id) q = none
      rw [ptLookup_erase]
      by_cases hqe : q = (getPage s f).page_id
      · rw [if_pos hqe]
      · rw [if_neg hqe]
        exact hq
    · intro q hq
      rw [wipePage_shape]
      show diskRead (if (getPage { s with replacer := r' } f).is_dirty then _ else _) q = _
      have hg : getPage { s with replacer := r' } f = getPage s f := rfl
      rw [hg]
      by_cases hd : (getPage s f).is_dirty = true
      · rw [if_pos hd]
        exact diskRead_write_ne s.disk (getPage s f).page_id q (getPage s f).data (hkey q hq)
      · rw [if_neg hd]

end BufferPoolManager

namespace BufferPoolManager

/-- Installing a page into the frame popped off the free list (the common
tail of `NewPageImpl` and the `FetchPageImpl` miss path) preserves the
invariant: the frame leaves the free list, holds the new page id with a
positive pin count, is pinned in the replacer, and the page table gains
the (previously absent) page id. -/
theorem inv_install (s1 s' : BufferPoolManager) (f : Nat) (rest : List Nat)
    (pid : Int) (pg' : Page)
    (hInv : Inv s1) (hfl : s1.free_list = f :: rest)
    (habs : ptLookup s1.page_table pid = none)
    (hid : pg'.page_id = pid) (hpin : 0 < pg'.pin_count)
    (h1 : s'.pool_size = s1.pool_size)
    (h2 : s'.pages = s1.pages.set f pg')
    (h3 : s'.replacer = ClockReplacer.Pin s1.replacer f)
    (h4 : s'.free_list = rest)
    (h5 : s'.page_table = ptInsert s1.page_table pid f)
    (h7 : s1.nextPageId ≤ s'.nextPageId)
    (h8 : pid < s'.nextPageId) : Inv s' := by
  have hmemf : f ∈ s1.free_list := by rw [hfl]; exact List.mem_cons_self f rest
  have hfn : f < s1.pool_size := hInv.free_lt f hmemf
  have flt : f < s1.pages.length := by rw [hInv.hlen]; exact hfn
  have hnd := hInv.free_nodup
  rw [hfl] at hnd
  obtain ⟨hfrest, hndrest⟩ := List.nodup_cons.mp hnd
  have G : ∀ g, getPage s' g = if g = f then pg' else getPage s1 g := by
    intro g
    by_cases hg : g = f
    · subst hg
      rw [if_pos rfl]
      show s'.pages.getD g cleanPage = pg'
      rw [h2]
      exact getD_set_self s1.pages g pg' flt
    · rw [if_neg hg]
      show s'.pages.getD g cleanPage = s1.pages.getD g cleanPage
      rw [h2]
      exact getD_set_ne s1.pages f g pg' cleanPage hg
  have ptL : ∀ q, ptLookup s'.page_table q =
      if pid = q then some f else ptLookup s1.page_table q := by
    intro q
    rw [h5]
    exact ptLookup_insert_absent s1.page_table pid f habs q
  have LP : ∀ g, ClockReplacer.lookupPinned s'.replacer g =
      if g = f then some true else ClockReplacer.lookupPinned s1.replacer g := by
    intro g
    rw [h3]
    exact ClockReplacer.Pin_lookupPinned s1.replacer f g
  refine ⟨?_, ?_, ?_, ?_, ?_, ?_, ?_, ?_, ?_, ?_⟩
  · rw [h2, List.length_set, hInv.hlen, h1]
  · intro g hg
    rw [h4] at hg
    rw [h1]
    exact hInv.free_lt g (by rw [hfl]; exact List.mem_cons_of_mem f hg)
  · intro g hg
    rw [h4] at hg
    rw [G g, if_neg (fun he : g = f => hfrest (he ▸ hg))]
    exact hInv.free_clean g (by rw [hfl]; exact List.mem_cons_of_mem f hg)
  · rw [h4]
    exact hndrest
  · intro g hg
    rw [h1] at hg
    by_cases he : g = f
    · right; left
      rw [G g, if_pos he]
      exact hpin
    · rcases hInv.cover g hg with hc | hc | hc
      · left
        rw [h4]
        rw [hfl] at hc
        rcases List.mem_cons.mp hc with hh | hh
        · exact absurd hh he
        · exact hh
      · right; left
        rw [G g, if_neg he]
        exact hc
      · right; right
        rw [LP g, if_neg he]
        exact hc
  · intro q g h
    rw [ptL q] at h
    by_cases hq : pid = q
    · rw [if_pos hq] at h
      injection h with h
      subst h
      refine ⟨h1 ▸ hfn, ?_, ?_⟩
      · rw [G f, if_pos rfl, hid, hq]
      · rw [h4]
        exact hfrest
    · rw [if_neg hq] at h
      obtain ⟨hg1, hg2, hg3⟩ := hInv.pt_frame q g h
      have hgf : g ≠ f := fun he => hg3 (he ▸ hmemf)
      refine ⟨h1 ▸ hg1, ?_, ?_⟩
      · rw [G g, if_neg hgf]
        exact hg2
      · rw [h4]
        intro hmem
        exact hg3 (by rw [hfl]; exact List.mem_cons_of_mem f hmem)
  · intro g hg hgnf
    rw [h1] at hg
    rw [h4] at hgnf
    by_cases he : g = f
    · rw [G g, if_pos he, hid, ptL pid, if_pos rfl, he]
    · have hgold : g ∉ s1.free_list := by
        rw [hfl]
        intro hmem
        rcases List.mem_cons.mp hmem with hh | hh
        · exact he hh
        · exact hgnf hh
      have hr := hInv.resident_pt g hg hgold
      rw [G g, if_neg he, ptL]
      rw [if_neg ?hpe]
      · exact hr
      case hpe =>
        intro hpe
        rw [← hpe, habs] at hr
        exact absurd hr (by simp)
  · intro k g h
    rw [h3] at h
    rcases ClockReplacer.Pin_occ s1.replacer f k g h with hh | ⟨k2, h2⟩
    · rw [hh, h1]
      exact hfn
    · rw [h1]
      exact hInv.occ_lt k2 g h2
  · intro g hg hp
    rw [LP g]
    by_cases he : g = f
    · rw [if_pos he]
      simp
    · rw [if_neg he]
      rw [h1] at hg
      rw [G g, if_neg he] at hp
      exact hInv.pin_not_member g hg hp
  · intro q g h
    rw [ptL q] at h
    by_cases hq : pid = q
    · rw [← hq]
      exact h8
    · rw [if_neg hq] at h
      exact lt_of_lt_of_le (hInv.pid_lt q g h) h7

end BufferPoolManager

namespace BufferPoolManager

/-- Bumping the pin count of a resident frame and pinning it in the
replacer (the `FetchPage` hit path) preserves the invariant. -/
theorem inv_pin_resident (s s' : BufferPoolManager) (p : Int) (f : Nat) (pg' : Page)
    (hInv : Inv s) (hres : ptLookup s.page_table p = some f)
    (h2 : s'.pages = s.pages.set f pg')
    (hid : pg'.page_id = (getPage s f).page_id)
    (hpin : 0 < pg'.pin_count)
    (h3 : s'.replacer = ClockReplacer.Pin s.replacer f)
    (h4 : s'.free_list = s.free_list) (h5 : s'.page_table = s.page_table)
    (h1 : s'.pool_size = s.pool_size) (h7 : s'.nextPageId = s.nextPageId) : Inv s' := by
  obtain ⟨hfn, hidf, hnf⟩ := hInv.pt_frame p f hres
  have flt : f < s.pages.length := by rw [hInv.hlen]; exact hfn
  have G : ∀ g, getPage s' g = if g = f then pg' else getPage s g := by
    intro g
    by_cases hg : g = f
    · subst hg
      rw [if_pos rfl]
      show s'.pages.getD g cleanPage = pg'
      rw [h2]
      exact getD_set_self s.pages g pg' flt
    · rw [if_neg hg]
      show s'.pages.getD g cleanPage = s.pages.getD g cleanPage
      rw [h2]
      exact getD_set_ne s.pages f g pg' cleanPage hg
  have LP : ∀ g, ClockReplacer.lookupPinned s'.replacer g =
      if g = f then some true else ClockReplacer.lookupPinned s.replacer g := by
    intro g
    rw [h3]
    exact ClockReplacer.Pin_lookupPinned s.replacer f g
  refine ⟨?_, ?_, ?_, ?_, ?_, ?_, ?_, ?_, ?_, ?_⟩
  · rw [h2, List.length_set, hInv.hlen, h1]
  · intro g hg
    rw [h4] at hg
    rw [h1]
    exact hInv.free_lt g hg
  · intro g hg
    rw [h4] at hg
    rw [G g, if_neg (fun he : g = f => hnf (he ▸ hg))]
    exact hInv.free_clean g hg
  · rw [h4]
    exact hInv.free_nodup
  · intro g hg
    rw [h1] at hg
    by_cases he : g = f
    · right; left
      rw [G g, if_pos he]
      exact hpin
    · rcases hInv.cover g hg with hc | hc | hc
      · left
        rw [h4]
        exact hc
      · right; left
        rw [G g, if_neg he]
        exact hc
      · right; right
        rw [LP g, if_neg he]
        exact hc
  · intro q g h
    rw [h5] at h
    obtain ⟨hg1, hg2, hg3⟩ := hInv.pt_frame q g h
    refine ⟨h1 ▸ hg1, ?_, by rw [h4]; exact hg3⟩
    rw [G g]
    by_cases he : g = f
    · have hgf : g = f := he
      rw [if_pos he, hid]
      rw [hgf] at hg2
      exact hg2
    · rw [if_neg he]
      exact hg2
  · intro g hg hgnf
    rw [h1] at hg
    rw [h4] at hgnf
    rw [h5, G g]
    by_cases he : g = f
    · rw [if_pos he, hid, he]
      exact hInv.resident_pt f hfn hnf
    · rw [if_neg he]
      exact hInv.resident_pt g hg hgnf
  · intro k g h
    rw [h3] at h
    rcases ClockReplacer.Pin_occ s.replacer f k g h with hh | ⟨k2, h2'⟩
    · rw [hh, h1]
      exact hfn
    · rw [h1]
      exact hInv.occ_lt k2 g h2'
  · intro g hg hp
    rw [LP g]
    by_cases he : g = f
    · rw [if_pos he]
      simp
    · rw [if_neg he]
      rw [h1] at hg
      rw [G g, if_neg he] at hp
      exact hInv.pin_not_member g hg hp
  · intro q g h
    rw [h5] at h
    rw [h7]
    exact hInv.pid_lt q g h

end BufferPoolManager

namespace BufferPoolManager

/-- `NewPage` preserves the invariant. -/
theorem inv_newPage (s : BufferPoolManager) (hInv : Inv s) :
    Inv (NewPageImpl s).2.2 := by
  by_cases hfe : s.free_list = []
  · obtain ⟨hI1, hps, hnp, hfalse, htrue, hptn, hdisk⟩ := inv_victimize s hInv hfe
    rcases hw : victimizeFrame s with ⟨ok, s1⟩
    rw [hw] at hI1 hps hnp htrue
    cases ok
    · simp only [NewPageImpl, hfe, reduceIte, hw]
      exact hI1
    · obtain ⟨f, hffn, hsf⟩ := htrue rfl
      have hsf1 : s1.free_list = [f] := hsf
      have hI1' : Inv s1 := hI1
      simp only [NewPageImpl, hfe, reduceIte, hw, hsf1]
      have habs : ptLookup s1.page_table s1.nextPageId = none :=
        ptLookup_fresh s1.page_table s1.nextPageId hI1'.pid_lt
      exact inv_install s1 _ f [] s1.nextPageId
        ({ getPage s1 f with
            page_id := s1.nextPageId
            pin_count := (getPage s1 f).pin_count + 1 })
        hI1' hsf1 habs rfl (Nat.succ_pos _) rfl rfl rfl rfl rfl
        (by show s1.nextPageId ≤ s1.nextPageId + 1; omega)
        (by show s1.nextPageId < s1.nextPageId + 1; omega)
  · rcases hfl : s.free_list with _ | ⟨f, rest⟩
    · exact absurd hfl hfe
    · simp only [NewPageImpl, hfl, List.cons_ne_nil, if_false, reduceIte]
      have habs : ptLookup s.page_table s.nextPageId = none :=
        ptLookup_fresh s.page_table s.nextPageId hInv.pid_lt
      exact inv_install s _ f rest s.nextPageId
        ({ getPage s f with
            page_id := s.nextPageId
            pin_count := (getPage s f).pin_count + 1 })
        hInv hfl habs rfl (Nat.succ_pos _) rfl rfl rfl rfl rfl
        (by show s.nextPageId ≤ s.nextPageId + 1; omega)
        (by show s.nextPageId < s.nextPageId + 1; omega)

end BufferPoolManager

namespace BufferPoolManager

/-- `FetchPage` of an allocated page preserves the invariant. -/
theorem inv_fetch (s : BufferPoolManager) (p : Int) (hp : p < s.nextPageId)
    (hInv : Inv s) : Inv (FetchPageImpl s p).2 := by
  rcases hc : ptLookup s.page_table p with _ | f
  · by_cases hfe : s.free_list = []
    · obtain ⟨hI1, hps, hnp, hfalse, htrue, hptn, hdisk⟩ := inv_victimize s hInv hfe
      rcases hw : victimizeFrame s with ⟨ok, s1⟩
      rw [hw] at hI1 hps hnp htrue hptn
      cases ok
      · simp only [FetchPageImpl, hc, hfe, reduceIte, hw]
        exact hI1
      · obtain ⟨f, hffn, hsf⟩ := htrue rfl
        have hsf1 : s1.free_list = [f] := hsf
        have hI1' : Inv s1 := hI1
        have habs : ptLookup s1.page_table p = none := hptn p hc
        have hN1 : s1.nextPageId = s.nextPageId := hnp
        simp only [FetchPageImpl, hc, hfe, reduceIte, hw, hsf1]
        exact inv_install s1 _ f [] p
          ({ getPage s1 f with page_id := p, data := diskRead s1.disk p, pin_count := 1 })
          hI1' hsf1 habs rfl Nat.one_pos rfl rfl rfl rfl rfl
          (le_refl _)
          (by show p < s1.nextPageId; rw [hN1]; exact hp)
    · rcases hfl : s.free_list with _ | ⟨f, rest⟩
      · exact absurd hfl hfe
      · simp only [FetchPageImpl, hc, hfl, List.cons_ne_nil, if_false, reduceIte]
        exact inv_install s _ f rest p
          ({ getPage s f with page_id := p, data := diskRead s.disk p, pin_count := 1 })
          hInv hfl hc rfl Nat.one_pos rfl rfl rfl rfl rfl (le_refl _) hp
  · simp only [FetchPageImpl, hc]
    exact inv_pin_resident s _ p f
      ({ getPage s f with pin_count := (getPage s f).pin_count + 1 })
      hInv hc rfl rfl (Nat.succ_pos _) rfl rfl
      (ptInsert_present s.page_table p f f hc) rfl rfl

end BufferPoolManager

namespace BufferPoolManager

/-- Every public operation preserves the invariant. -/
theorem inv_step (s : BufferPoolManager) (op : Op) (hInv : Inv s) (hok : OkOp s op) :
    Inv (stepOp s op) := by
  cases op with
  | newPage => exact inv_newPage s hInv
  | fetch p => exact inv_fetch s p hok hInv
  | unpin p d => exact inv_unpin s p d hInv
  | flush p => exact inv_flush s p hInv
  | delete p => exact inv_delete s p hInv
  | flushAll => exact inv_flushAll s hInv
  | write p v => exact inv_write s p v hInv

/-- The invariant is preserved along any disciplined run. -/
theorem runOk_inv (Q : Op → Prop) {s t : BufferPoolManager}
    (h : RunOk Q s t) (hs : Inv s) : Inv t := by
  induction h with
  | refl => exact hs
  | step op h1 hok hQ ih => exact inv_step _ op ih hok

/-- Every reachable state satisfies the invariant. -/
theorem reach_inv (n : Nat) (s : BufferPoolManager) (h : Reach n s) : Inv s :=
  runOk_inv _ h (inv_init n)

end BufferPoolManager

/-! ## Frame-state partition (claim C1) -/

namespace BufferPoolManager

/-- The state of the one-frame pool after `NewPage`; `UnpinPage(0,false)`;
`DeletePage(0)`: the wiped frame is pushed on the manager's free list but
never removed from the replacer. -/
def deleteOverlapState : BufferPoolManager :=
  stepOp (stepOp (stepOp (initBPM 1) Op.newPage) (Op.unpin 0 false)) (Op.delete 0)

/-- C1 (counterexample): the three frame states are not mutually
exclusive.  After `NewPage`; `UnpinPage(0, false)`; `DeletePage(0)` on a
one-frame pool — a legal operation sequence — frame 0 is simultaneously
on the manager's free list and in the replacer's victimizable set,
because `DeletePageImpl` wipes the frame without telling the replacer. -/
theorem delete_leaves_frame_in_both :
    Reach 1 deleteOverlapState ∧
    0 ∈ deleteOverlapState.free_list ∧
    inReplacerSet deleteOverlapState 0 = true :=
  ⟨RunOk.step (Op.delete 0)
      (RunOk.step (Op.unpin 0 false)
        (RunOk.step Op.newPage (RunOk.refl _) trivial trivial) trivial trivial)
      trivial trivial,
    by decide, by decide⟩

/-- C1 (amended): in every reachable state, every frame is in at least
one of the three states — free, pinned, or in the replacer's set; a
pinned frame is in neither of the other two states; and a free frame has
pin count zero.  The three states are however not mutually exclusive: a
frame can be free and in the replacer's set at once (see the `DeletePage`
counterexample), so "exactly one" fails while this weaker partition
holds. -/
theorem frame_state_partition (n : Nat) (s : BufferPoolManager) (h : Reach n s)
    (f : Nat) (hf : f < s.pool_size) :
    (f ∈ s.free_list ∨ 0 < (getPage s f).pin_count ∨ inReplacerSet s f = true) ∧
    (0 < (getPage s f).pin_count → f ∉ s.free_list ∧ inReplacerSet s f = false) ∧
    (f ∈ s.free_list → (getPage s f).pin_count = 0) := by
  have hInv := reach_inv n s h
  refine ⟨?_, ?_, ?_⟩
  · rcases hInv.cover f hf with h1 | h1 | h1
    · exact Or.inl h1
    · exact Or.inr (Or.inl h1)
    · exact Or.inr (Or.inr ((inReplacerSet_iff s f).mpr h1))
  · intro hp
    constructor
    · intro hmem
      have hcl := hInv.free_clean f hmem
      rw [hcl] at hp
      exact absurd hp (by simp [cleanPage])
    · cases hb : inReplacerSet s f
      · rfl
      · exact absurd ((inReplacerSet_iff s f).mp hb) (hInv.pin_not_member f hf hp)
  · intro hmem
    have hcl := hInv.free_clean f hmem
    rw [hcl]
    rfl

/-- Witness for C1: the amended partition evaluated in the one-frame pool
right after `NewPage` (frame 0 pinned). -/
theorem frame_state_partition_witness :
    (0 ∈ (stepOp (initBPM 1) Op.newPage).free_list ∨
      0 < (getPage (stepOp (initBPM 1) Op.newPage) 0).pin_count ∨
      inReplacerSet (stepOp (initBPM 1) Op.newPage) 0 = true) ∧
    (0 < (getPage (stepOp (initBPM 1) Op.newPage) 0).pin_count →
      0 ∉ (stepOp (initBPM 1) Op.newPage).free_list ∧
      inReplacerSet (stepOp (initBPM 1) Op.newPage) 0 = false) ∧
    (0 ∈ (stepOp (initBPM 1) Op.newPage).free_list →
      (getPage (stepOp (initBPM 1) Op.newPage) 0).pin_count = 0) :=
  frame_state_partition 1 (stepOp (initBPM 1) Op.newPage)
    (RunOk.step Op.newPage (RunOk.refl _) trivial trivial) 0 (by decide)

end BufferPoolManager

/-! ## Free-frame cleanliness and the NewPage handle (claim C9) -/

namespace BufferPoolManager

/-- Under the invariant, a successful `NewPage` hands out a frame whose
`Page` is exactly ⟨pid, 1, false, 0⟩ — even though `NewPageImpl` never
zeroes the bytes or clears the dirty flag, because the frame it pops was
wiped clean. -/
theorem newPage_success_spec (s : BufferPoolManager) (hInv : Inv s) :
    ∀ f pid s', NewPageImpl s = (some f, pid, s') →
      getPage s' f = { page_id := pid, pin_count := 1, is_dirty := false, data := 0 } := by
  intro f pid s' hEq
  by_cases hfe : s.free_list = []
  · obtain ⟨hI1, hps, hnp, hfalse, htrue, hptn, hdisk⟩ := inv_victimize s hInv hfe
    rcases hw : victimizeFrame s with ⟨ok, s1⟩
    rw [hw] at hI1 hps htrue
    cases ok
    · simp only [NewPageImpl, hfe, reduceIte, hw] at hEq
      exact absurd hEq (by simp)
    · obtain ⟨f1, hffn, hsf⟩ := htrue rfl
      have hsf1 : s1.free_list = [f1] := hsf
      have hI1' : Inv s1 := hI1
      have hps1 : s1.pool_size = s.pool_size := hps
      simp only [NewPageImpl, hfe, reduceIte, hw, hsf1] at hEq
      injection hEq with ha hb
      injection hb with hb hc
      injection ha with ha
      obtain rfl := ha
      have hclean : getPage s1 f1 = cleanPage :=
        hI1'.free_clean f1 (by rw [hsf1]; exact List.mem_cons_self _ _)
      have flt : f1 < s1.pages.length := by
        rw [hI1'.hlen, hps1]
        exact hffn
      have hget : getPage s' f1 =
          ({ getPage s1 f1 with
              page_id := s1.nextPageId
              pin_count := (getPage s1 f1).pin_count + 1 }) := by
        rw [← hc]
        exact getD_set_self s1.pages f1 _ flt
      rw [hget, hclean, ← hb]
      rfl
  · rcases hfl : s.free_list with _ | ⟨f0, rest⟩
    · exact absurd hfl hfe
    · have hmem : f0 ∈ s.free_list := by rw [hfl]; exact List.mem_cons_self _ _
      simp only [NewPageImpl, hfl, List.cons_ne_nil, if_false, reduceIte] at hEq
      injection hEq with ha hb
      injection hb with hb hc
      injection ha with ha
      obtain rfl := ha
      have hclean : getPage s f0 = cleanPage := hInv.free_clean f0 hmem
      have flt : f0 < s.pages.length := by
        rw [hInv.hlen]
        exact hInv.free_lt f0 hmem
      have hget : getPage s' f0 =
          ({ getPage s f0 with
              page_id := s.nextPageId
              pin_count := (getPage s f0).pin_count + 1 }) := by
        rw [← hc]
        exact getD_set_self s.pages f0 _ flt
      rw [hget, hclean, ← hb]
      rfl

/-- C9: in every reachable state, every frame on the free list is fully
wiped — `page_id = INVALID_PAGE_ID (-1)`, `pin_count = 0`,
`is_dirty = false`, zeroed bytes — and therefore a successful
`NewPage` returns a handle presenting exactly the new page id, pin count
1, a clear dirty flag and zeroed bytes, although `NewPageImpl` itself
resets neither the bytes nor the flag. -/
theorem free_frames_clean_newPage_zeroed (n : Nat) (s : BufferPoolManager)
    (h : Reach n s) :
    (∀ f ∈ s.free_list, getPage s f = cleanPage) ∧
    (∀ f pid s', NewPageImpl s = (some f, pid, s') →
      getPage s' f = { page_id := pid, pin_count := 1, is_dirty := false, data := 0 }) := by
  have hInv := reach_inv n s h
  exact ⟨hInv.free_clean, newPage_success_spec s hInv⟩

/-- Witness for C9: in the fresh one-frame pool, frame 0 is clean on the
free list, and `NewPage` returns page 0 in frame 0 as ⟨0, 1, false, 0⟩. -/
theorem free_frames_clean_newPage_zeroed_witness :
    (∀ f ∈ (initBPM 1).free_list, getPage (initBPM 1) f = cleanPage) ∧
    getPage (NewPageImpl (initBPM 1)).2.2 0 =
      { page_id := 0, pin_count := 1, is_dirty := false, data := 0 } :=
  ⟨(free_frames_clean_newPage_zeroed 1 (initBPM 1) (RunOk.refl _)).1,
   (free_frames_clean_newPage_zeroed 1 (initBPM 1) (RunOk.refl _)).2
      0 0 (NewPageImpl (initBPM 1)).2.2 (by decide)⟩

end BufferPoolManager

/-! ## Dirty eviction write-back (claim C3) -/

namespace BufferPoolManager

/-- Under the invariant, a successful `FetchPage` of a non-resident page
returns a frame holding exactly the bytes the disk stores under that
page id (with pin count 1 and a clear dirty flag). -/
theorem fetch_success_spec (t : BufferPoolManager) (p : Int) (hInv : Inv t)
    (hnr : ptLookup t.page_table p = none) :
    ∀ g t', FetchPageImpl t p = (some g, t') →
      getPage t' g = { page_id := p, pin_count := 1, is_dirty := false,
                       data := diskRead t.disk p } := by
  intro g t' hEq
  by_cases hfe : t.free_list = []
  · obtain ⟨hI1, hps, hnp, hfalse, htrue, hptn, hdisk⟩ := inv_victimize t hInv hfe
    rcases hw : victimizeFrame t with ⟨ok, s1⟩
    rw [hw] at hI1 hps htrue hdisk
    cases ok
    · simp only [FetchPageImpl, hnr, hfe, reduceIte, hw] at hEq
      exact absurd hEq (by simp)
    · obtain ⟨f1, hffn, hsf⟩ := htrue rfl
      have hsf1 : s1.free_list = [f1] := hsf
      have hI1' : Inv s1 := hI1
      have hps1 : s1.pool_size = t.pool_size := hps
      have hgd : diskRead s1.disk p = diskRead t.disk p := hdisk p hnr
      simp only [FetchPageImpl, hnr, hfe, reduceIte, hw, hsf1] at hEq
      injection hEq with ha hc
      injection ha with ha
      obtain rfl := ha
      have hclean : getPage s1 f1 = cleanPage :=
        hI1'.free_clean f1 (by rw [hsf1]; exact List.mem_cons_self _ _)
      have flt : f1 < s1.pages.length := by
        rw [hI1'.hlen, hps1]
        exact hffn
      have hget : getPage t' f1 =
          ({ getPage s1 f1 with
              page_id := p
              data := diskRead s1.disk p
              pin_count := 1 }) := by
        rw [← hc]
        exact getD_set_self s1.pages f1 _ flt
      rw [hget, hclean, hgd]
      rfl
  · rcases hfl : t.free_list with _ | ⟨f0, rest⟩
    · exact absurd hfl hfe
    · have hmem : f0 ∈ t.free_list := by rw [hfl]; exact List.mem_cons_self _ _
      simp only [FetchPageImpl, hnr, hfl, List.cons_ne_nil, if_false, reduceIte] at hEq
      injection hEq with ha hc
      injection ha with ha
      obtain rfl := ha
      have hclean : getPage t f0 = cleanPage := hInv.free_clean f0 hmem
      have flt : f0 < t.pages.length := by
        rw [hInv.hlen]
        exact hInv.free_lt f0 hmem
      have hget : getPage t' f0 =
          ({ getPage t f0 with
              page_id := p
              data := diskRead t.disk p
              pin_count := 1 }) := by
        rw [← hc]
        exact getD_set_self t.pages f0 _ flt
      rw [hget, hclean]
      rfl

end BufferPoolManager

namespace BufferPoolManager

/-- One `FlushAllPages` iteration never touches the page table or the
disk entry of an absent page. -/
theorem flushStep_stable (t : BufferPoolManager) (i : Nat) (p : Int)
    (hInv : Inv t) (hnr : ptLookup t.page_table p = none) :
    (flushStep t i).page_table = t.page_table ∧
    diskRead (flushStep t i).disk p = diskRead t.disk p ∧
    (flushStep t i).nextPageId = t.nextPageId := by
  simp only [flushStep]
  by_cases h1 : (getPage t i).page_id = -1
  · rw [if_pos h1]
    exact ⟨rfl, rfl, rfl⟩
  · rw [if_neg h1]
    have hi : i < t.pool_size := by
      by_contra hni
      have hle : t.pages.length ≤ i := by rw [hInv.hlen]; omega
      have hcl : getPage t i = cleanPage := List.getD_eq_default t.pages cleanPage hle
      exact h1 (by rw [hcl]; rfl)
    have hnf : i ∉ t.free_list := fun hm => h1 (by rw [hInv.free_clean i hm]; rfl)
    have hres := hInv.resident_pt i hi hnf
    have hqp : (getPage t i).page_id ≠ p := by
      intro he
      rw [he, hnr] at hres
      exact absurd hres (by simp)
    exact ⟨rfl, diskRead_write_ne t.disk (getPage t i).page_id p (getPage t i).data
      (fun he => hqp he.symm), rfl⟩

/-- The `FlushAllPages` fold never touches the page table or the disk
entry of an absent page, and keeps the invariant. -/
theorem flushAll_foldl_stable (l : List Nat) :
    ∀ (t : BufferPoolManager) (p : Int), Inv t → ptLookup t.page_table p = none →
      (List.foldl flushStep t l).page_table = t.page_table ∧
      diskRead (List.foldl flushStep t l).disk p = diskRead t.disk p ∧
      (List.foldl flushStep t l).nextPageId = t.nextPageId := by
  induction l with
  | nil => intro t p _ _; exact ⟨rfl, rfl, rfl⟩
  | cons i l ih =>
    intro t p hInv hnr
    rw [List.foldl_cons]
    obtain ⟨h1, h2, h3⟩ := flushStep_stable t i p hInv hnr
    obtain ⟨h4, h5, h6⟩ := ih (flushStep t i) p (inv_flushAll_step t i hInv)
      (by rw [h1]; exact hnr)
    exact ⟨by rw [h4, h1], by rw [h5, h2], by rw [h6, h3]⟩

/-- Any public operation other than `FetchPage(p)` leaves an allocated
but non-resident page `p` non-resident with its disk bytes unchanged,
and never lowers the page-id allocator. -/
theorem no_fetch_step_stable (t : BufferPoolManager) (op : Op) (p : Int)
    (hInv : Inv t) (hne : op ≠ Op.fetch p)
    (hnr : ptLookup t.page_table p = none) (hplt : p < t.nextPageId) :
    ptLookup (stepOp t op).page_table p = none ∧
    diskRead (stepOp t op).disk p = diskRead t.disk p ∧
    t.nextPageId ≤ (stepOp t op).nextPageId := by
  cases op with
  | newPage =>
    simp only [stepOp]
    by_cases hfe : t.free_list = []
    · obtain ⟨hI1, hps, hnp, hfalse, htrue, hptn, hdisk⟩ := inv_victimize t hInv hfe
      rcases hw : victimizeFrame t with ⟨ok, s1⟩
      rw [hw] at hI1 hnp htrue hptn hdisk
      have hI1' : Inv s1 := hI1
      have hnp1 : s1.nextPageId = t.nextPageId := hnp
      have hnr1 : ptLookup s1.page_table p = none := hptn p hnr
      have hd1 : diskRead s1.disk p = diskRead t.disk p := hdisk p hnr
      cases ok
      · simp only [NewPageImpl, hfe, reduceIte, hw]
        exact ⟨hnr1, hd1, le_of_eq hnp1.symm⟩
      · obtain ⟨f1, hffn, hsf⟩ := htrue rfl
        have hsf1 : s1.free_list = [f1] := hsf
        simp only [NewPageImpl, hfe, reduceIte, hw, hsf1]
        refine ⟨?_, hd1, ?_⟩
        · show ptLookup (ptInsert s1.page_table s1.nextPageId f1) p = none
          rw [ptLookup_insert_absent s1.page_table s1.nextPageId f1
            (ptLookup_fresh _ _ hI1'.pid_lt) p]
          rw [if_neg (by rw [hnp1]; omega : ¬(s1.nextPageId = p))]
          exact hnr1
        · show t.nextPageId ≤ s1.nextPageId + 1
          rw [hnp1]
          omega
    · rcases hfl : t.free_list with _ | ⟨f0, rest⟩
      · exact absurd hfl hfe
      · simp only [NewPageImpl, hfl, List.cons_ne_nil, if_false, reduceIte]
        refine ⟨?_, rfl, ?_⟩
        · show ptLookup (ptInsert t.page_table t.nextPageId f0) p = none
          rw [ptLookup_insert_absent t.page_table t.nextPageId f0
            (ptLookup_fresh _ _ hInv.pid_lt) p]
          rw [if_neg (by omega : ¬(t.nextPageId = p))]
          exact hnr
        · show t.nextPageId ≤ t.nextPageId + 1
          omega
  | fetch q =>
    have hqp : q ≠ p := fun he => hne (by rw [he])
    simp only [stepOp]
    rcases hcq : ptLookup t.page_table q with _ | fq
    · by_cases hfe : t.free_list = []
      · obtain ⟨hI1, hps, hnp, hfalse, htrue, hptn, hdisk⟩ := inv_victimize t hInv hfe
        rcases hw : victimizeFrame t with ⟨ok, s1⟩
        rw [hw] at hI1 hnp htrue hptn hdisk
        have hnp1 : s1.nextPageId = t.nextPageId := hnp
        have hnr1 : ptLookup s1.page_table p = none := hptn p hnr
        have hq1 : ptLookup s1.page_table q = none := hptn q hcq
        have hd1 : diskRead s1.disk p = diskRead t.disk p := hdisk p hnr
        cases ok
        · simp only [FetchPageImpl, hcq, hfe, reduceIte, hw]
          exact ⟨hnr1, hd1, le_of_eq hnp1.symm⟩
        · obtain ⟨f1, hffn, hsf⟩ := htrue rfl
          have hsf1 : s1.free_list = [f1] := hsf
          simp only [FetchPageImpl, hcq, hfe, reduceIte, hw, hsf1]
          refine ⟨?_, hd1, le_of_eq hnp1.symm⟩
          show ptLookup (ptInsert s1.page_table q f1) p = none
          rw [ptLookup_insert_absent s1.page_table q f1 hq1 p, if_neg hqp]
          exact hnr1
      · rcases hfl : t.free_list with _ | ⟨f0, rest⟩
        · exact absurd hfl hfe
        · simp only [FetchPageImpl, hcq, hfl, List.cons_ne_nil, if_false, reduceIte]
          refine ⟨?_, rfl, le_refl _⟩
          show ptLookup (ptInsert t.page_table q f0) p = none
          rw [ptLookup_insert_absent t.page_table q f0 hcq p, if_neg hqp]
          exact hnr
    · simp only [FetchPageImpl, hcq]
      refine ⟨?_, rfl, le_refl _⟩
      show ptLookup (ptInsert t.page_table q fq) p = none
      rw [ptInsert_present t.page_table q fq fq hcq]
      exact hnr
  | unpin q d =>
    simp only [stepOp]
    rcases hcq : ptLookup t.page_table q with _ | fq
    · have hs : (UnpinPageImpl t q d).2 = t := by
        unfold UnpinPageImpl
        rw [hcq]
      rw [hs]
      exact ⟨hnr, rfl, le_refl _⟩
    · by_cases h0 : (getPage t fq).pin_count = 0
      · rw [unpin_zero_shape t q fq d hcq h0]
        exact ⟨hnr, rfl, le_refl _⟩
      · obtain ⟨-, -, -, hpt, -, hdisk', hnpi, -⟩ := unpin_pos_shape t q fq d hcq h0
        refine ⟨by rw [hpt]; exact hnr, by rw [hdisk'], by rw [hnpi]⟩
  | flush q =>
    simp only [stepOp]
    rcases hcq : ptLookup t.page_table q with _ | fq
    · have hs : (FlushPageImpl t q).2 = t := by
        unfold FlushPageImpl
        rw [hcq]
      rw [hs]
      exact ⟨hnr, rfl, le_refl _⟩
    · have hqp2 : q ≠ p := by
        intro he
        rw [he, hnr] at hcq
        exact absurd hcq (by simp)
      rw [flush_resident_shape t q fq hcq]
      exact ⟨hnr, diskRead_write_ne t.disk q p (getPage t fq).data
        (fun he => hqp2 he.symm), le_refl _⟩
  | delete q =>
    simp only [stepOp]
    rcases hcq : ptLookup t.page_table q with _ | fq
    · have hs : (DeletePageImpl t q).2 = t := by
        unfold DeletePageImpl
        rw [hcq]
      rw [hs]
      exact ⟨hnr, rfl, le_refl _⟩
    · by_cases hp0 : (getPage t fq).pin_count ≠ 0
      · have hs : (DeletePageImpl t q).2 = t := by
          simp only [DeletePageImpl, hcq]
          rw [if_pos hp0]
        rw [hs]
        exact ⟨hnr, rfl, le_refl _⟩
      · have hs : (DeletePageImpl t q).2 =
            wipePage (setPage t fq ({ getPage t fq with is_dirty := false })) q fq := by
          simp only [DeletePageImpl, hcq]
          rw [if_neg hp0]
        have flt : fq < t.pages.length := by
          rw [hInv.hlen]
          exact (hInv.pt_frame q fq hcq).1
        have hgq : getPage (setPage t fq ({ getPage t fq with is_dirty := false })) fq =
            ({ getPage t fq with is_dirty := false }) := getPage_setPage_self t fq _ flt
        rw [hs, wipePage_shape, hgq]
        refine ⟨?_, ?_, le_refl _⟩
        · show ptLookup (ptErase t.page_table q) p = none
          rw [ptLookup_erase]
          by_cases hqe : p = q
          · rw [if_pos hqe]
          · rw [if_neg hqe]
            exact hnr
        · rw [if_neg (by simp : ¬(({ getPage t fq with is_dirty := false } : Page).is_dirty = true))]
          rfl
  | flushAll =>
    simp only [stepOp]
    rw [flushAll_eq_foldl]
    obtain ⟨h1, h2, h3⟩ := flushAll_foldl_stable (List.range t.pool_size) t p hInv hnr
    exact ⟨by rw [h1]; exact hnr, h2, le_of_eq h3.symm⟩
  | write q v =>
    simp only [stepOp]
    unfold writeData
    rcases hcq : ptLookup t.page_table q with _ | fq
    · exact ⟨hnr, rfl, le_refl _⟩
    · simp only []
      by_cases hq0 : (getPage t fq).pin_count ≠ 0
      · rw [if_pos hq0]
        exact ⟨hnr, rfl, le_refl _⟩
      · rw [if_neg hq0]
        exact ⟨hnr, rfl, le_refl _⟩

end BufferPoolManager

namespace BufferPoolManager

/-- Along any run that never fetches page `p`, an allocated non-resident
`p` stays non-resident with unchanged disk bytes, and the invariant is
maintained. -/
theorem no_fetch_run_stable (p : Int) {s1 t : BufferPoolManager}
    (h : RunOk (fun op => op ≠ Op.fetch p) s1 t)
    (hInv : Inv s1) (hnr : ptLookup s1.page_table p = none)
    (hplt : p < s1.nextPageId) :
    ptLookup t.page_table p = none ∧
    diskRead t.disk p = diskRead s1.disk p ∧
    p < t.nextPageId ∧ Inv t := by
  induction h with
  | refl => exact ⟨hnr, rfl, hplt, hInv⟩
  | step op h1 hok hQ ih =>
    obtain ⟨a, b, c, d⟩ := ih
    obtain ⟨e, f2, g⟩ := no_fetch_step_stable _ op p d hQ a c
    exact ⟨e, by rw [f2, b], lt_of_lt_of_le c g, inv_step _ op d hok⟩

/-- C3: in any reachable state with an exhausted free list, when the
replacer delivers a victim frame whose `is_dirty` flag is set, the
eviction (`victimizeFrame` → `wipePage`, as run by `NewPage` and by a
`FetchPage` miss) writes the frame's bytes to disk under the evicted
page id before recycling the frame; and as long as that page is not
fetched again, its disk bytes and non-residency persist, so the next
successful `FetchPage` of it returns exactly the bytes the frame held at
eviction time. -/
theorem dirty_eviction_writeback (n : Nat) (s : BufferPoolManager) (h : Reach n s)
    (hfe : s.free_list = []) (f : Nat) (r' : ClockReplacer)
    (hv : ClockReplacer.Victim s.replacer = (some f, r'))
    (hdirty : (getPage s f).is_dirty = true) :
    diskRead (victimizeFrame s).2.disk (getPage s f).page_id = (getPage s f).data ∧
    ∀ t, RunOk (fun op => op ≠ Op.fetch (getPage s f).page_id) (victimizeFrame s).2 t →
      diskRead t.disk (getPage s f).page_id = (getPage s f).data ∧
      ptLookup t.page_table (getPage s f).page_id = none ∧
      ∀ g t', FetchPageImpl t (getPage s f).page_id = (some g, t') →
        getPage t' g = { page_id := (getPage s f).page_id, pin_count := 1,
                         is_dirty := false, data := (getPage s f).data } := by
  have hInv := reach_inv n s h
  obtain ⟨hnp, hLP, hocc, ⟨kv, hkv⟩⟩ := ClockReplacer.Victim_some_state s.replacer f r' hv
  have hfn : f < s.pool_size := hInv.occ_lt kv f hkv
  have hnfree : f ∉ s.free_list := by rw [hfe]; exact List.not_mem_nil f
  have hres := hInv.resident_pt f hfn hnfree
  have hplt0 : (getPage s f).page_id < s.nextPageId := hInv.pid_lt _ f hres
  have hshape := victimizeFrame_some_shape s f r' hv hres
  have hInv1 : Inv (victimizeFrame s).2 := (inv_victimize s hInv hfe).1
  have hd0 : diskRead (victimizeFrame s).2.disk (getPage s f).page_id =
      (getPage s f).data := by
    rw [hshape, wipePage_shape]
    rw [if_pos (show (getPage { s with replacer := r' } f).is_dirty = true from hdirty)]
    exact diskRead_write_self s.disk (getPage s f).page_id (getPage s f).data
  have hnr1 : ptLookup (victimizeFrame s).2.page_table (getPage s f).page_id = none := by
    rw [hshape, wipePage_shape]
    show ptLookup (ptErase s.page_table (getPage s f).page_id) (getPage s f).page_id = none
    rw [ptLookup_erase, if_pos rfl]
  have hplt1 : (getPage s f).page_id < (victimizeFrame s).2.nextPageId := by
    rw [(inv_victimize s hInv hfe).2.2.1]
    exact hplt0
  refine ⟨hd0, ?_⟩
  intro t ht
  obtain ⟨a, b, c, d⟩ := no_fetch_run_stable (getPage s f).page_id ht hInv1 hnr1 hplt1
  have hbytes : diskRead t.disk (getPage s f).page_id = (getPage s f).data := by
    rw [b, hd0]
  refine ⟨hbytes, a, ?_⟩
  intro g t' hEq
  have hft := fetch_success_spec t (getPage s f).page_id d a g t' hEq
  rw [hft, hbytes]

/-- One-frame pool holding the dirty page 0 with bytes 42 at pin count
zero: `NewPage`; a data write of 42 through the handle;
`UnpinPage(0, true)`. -/
def evictScenario : BufferPoolManager :=
  stepOp (stepOp (stepOp (initBPM 1) Op.newPage) (Op.write 0 42)) (Op.unpin 0 true)

/-- Witness for C3: evicting dirty page 0 (bytes 42) writes 42 to disk,
and fetching page 0 again returns a frame holding exactly those bytes. -/
theorem dirty_eviction_writeback_witness :
    diskRead (victimizeFrame evictScenario).2.disk (getPage evictScenario 0).page_id =
      (getPage evictScenario 0).data ∧
    getPage (FetchPageImpl (victimizeFrame evictScenario).2
        (getPage evictScenario 0).page_id).2 0 =
      { page_id := (getPage evictScenario 0).page_id, pin_count := 1, is_dirty := false,
        data := (getPage evictScenario 0).data } := by
  have hmain := dirty_eviction_writeback 1 evictScenario
    (RunOk.step (Op.unpin 0 true)
      (RunOk.step (Op.write 0 42)
        (RunOk.step Op.newPage (RunOk.refl _) trivial trivial) trivial trivial)
      trivial trivial)
    (by decide) 0 (ClockReplacer.Victim evictScenario.replacer).2 (by decide) (by decide)
  exact ⟨hmain.1,
    (hmain.2 (victimizeFrame evictScenario).2 (RunOk.refl _)).2.2 0
      (FetchPageImpl (victimizeFrame evictScenario).2
        (getPage evictScenario 0).page_id).2
      (by decide)⟩

end BufferPoolManager
